import Mathlib

/-!
# casbin-mongodb-adapter: the record conversions and store operations of `MongoAdapter`

A shallow embedding of `build/module/lib/adapter.js` and
`build/module/lib/casbin-rule.entity.js`.

* JavaScript strings are Lean `String`s; the rule tuples are `string[]`, so `List String`.
* `fieldIndex` is a JavaScript number holding an integer, so `Int`.  An array has fewer
  than `2^32` elements, so every comparison `fieldIndex <= k && k < fieldIndex + length`
  that can succeed is decided on exactly represented integers.
* The wall clock read by `createCasbinRule` is an explicit argument.
* The database is explicit state.  A driver call whose failure the adapter lets escape
  to its caller is a total function on that state (the call is followed on its
  completed path); where the adapter itself catches the failure and goes on
  (`clearCollection`, `createDBIndex`, `open`), the failing outcome is an explicit
  argument.
-/

namespace CasbinMongo

/-! ## Data model -/

/-- Interface `CasbinRule` of `casbin-rule.entity.d.ts`: nine optional string properties.
`none` is an absent property. -/
structure CasbinRule where
  ptype : Option String := none
  v0 : Option String := none
  v1 : Option String := none
  v2 : Option String := none
  v3 : Option String := none
  v4 : Option String := none
  v5 : Option String := none
  createdAt : Option String := none
  updatedAt : Option String := none
deriving DecidableEq, Repr

/-- Read of the positional property `v<k>`; there is no such property for `k > 5`. -/
def CasbinRule.field (r : CasbinRule) : Nat → Option String
  | 0 => r.v0
  | 1 => r.v1
  | 2 => r.v2
  | 3 => r.v3
  | 4 => r.v4
  | 5 => r.v5
  | _ => none

/-- Assignment `line["v" + i] = x` for `i` in `0..5` (the only indices the adapter uses). -/
def CasbinRule.setField (line : CasbinRule) (i : Nat) (x : String) : CasbinRule :=
  match i with
  | 0 => { line with v0 := some x }
  | 1 => { line with v1 := some x }
  | 2 => { line with v2 := some x }
  | 3 => { line with v3 := some x }
  | 4 => { line with v4 := some x }
  | 5 => { line with v5 := some x }
  | _ => line

/-! ## `casbin-rule.entity.js` -/

/-- Function `createCasbinRule(options)`: an empty record, carrying the clock reading `now`
in both timestamp properties when `options.includeTimestamps` is truthy.  The clock is
not read otherwise. -/
def createCasbinRule (includeTimestamps : Bool) (now : String) : CasbinRule :=
  let rule : CasbinRule := {}
  if includeTimestamps then
    { rule with createdAt := some now, updatedAt := some now }
  else
    rule

/-! ## `adapter.js`: record conversions -/

/-- Method `populateCasbinRule(line, ptype, rule)`: sets `ptype`, then runs
`for (let i = 0; i < rule.length && i < 6; i++) line["v" + i] = rule[i]`, that is, assigns
the first six elements of `rule` in index order. -/
def populateCasbinRule (line : CasbinRule) (ptype : String) (rule : List String) : CasbinRule :=
  (rule.take 6).enum.foldl (fun l p => l.setField p.1 p.2) { line with ptype := some ptype }

/-- Method `savePolicyLine(ptype, rule)`; `now` is the clock reading of this call. -/
def savePolicyLine (now : String) (ptype : String) (rule : List String) : CasbinRule :=
  populateCasbinRule (createCasbinRule true now) ptype rule

/-- Method `deletePolicyLine(ptype, rule)`.  No clock is read, the second argument of
`createCasbinRule` is unused on this path. -/
def deletePolicyLine (ptype : String) (rule : List String) : CasbinRule :=
  populateCasbinRule (createCasbinRule false "") ptype rule

/-- Array read `xs[i]` for a numeric index: `undefined` outside `0 .. length - 1`. -/
def jsIndex (xs : List String) (i : Int) : Option String :=
  if i < 0 then none else xs[i.toNat]?

/-- The record `line` that `removeFilteredPolicy(_sec, ptype, fieldIndex, ...fieldValues)`
builds before it calls `deleteMany(line)`: the six guarded assignments, in source order. -/
def removeFilteredPolicyLine (ptype : String) (fieldIndex : Int) (fieldValues : List String) :
    CasbinRule :=
  let line : CasbinRule := {}
  let line := { line with ptype := some ptype }
  let line := if fieldIndex ≤ 0 ∧ 0 < fieldIndex + fieldValues.length then
    { line with v0 := jsIndex fieldValues (0 - fieldIndex) } else line
  let line := if fieldIndex ≤ 1 ∧ 1 < fieldIndex + fieldValues.length then
    { line with v1 := jsIndex fieldValues (1 - fieldIndex) } else line
  let line := if fieldIndex ≤ 2 ∧ 2 < fieldIndex + fieldValues.length then
    { line with v2 := jsIndex fieldValues (2 - fieldIndex) } else line
  let line := if fieldIndex ≤ 3 ∧ 3 < fieldIndex + fieldValues.length then
    { line with v3 := jsIndex fieldValues (3 - fieldIndex) } else line
  let line := if fieldIndex ≤ 4 ∧ 4 < fieldIndex + fieldValues.length then
    { line with v4 := jsIndex fieldValues (4 - fieldIndex) } else line
  let line := if fieldIndex ≤ 5 ∧ 5 < fieldIndex + fieldValues.length then
    { line with v5 := jsIndex fieldValues (5 - fieldIndex) } else line
  line

/-- String conversion of `line.ptype` in `line.ptype + ', '`: an absent property
concatenates as the text `undefined`. -/
def jsToString : Option String → String
  | none => "undefined"
  | some s => s

/-- Truthiness of an optional string, the test of `.filter(n => n)`: `undefined` and the
empty string are falsy, every other string is truthy. -/
def truthy : Option String → Bool
  | none => false
  | some s => s != ""

/-- Method `Array.prototype.join(sep)` on an array of optional strings: `undefined`
elements contribute the empty text. -/
def jsJoin (sep : String) : List (Option String) → String
  | [] => ""
  | [x] => x.getD ""
  | x :: y :: rest => x.getD "" ++ sep ++ jsJoin sep (y :: rest)

/-- The text `result` that `loadPolicyLine(line, model)` computes and hands to
`Helper.loadPolicyLine`. -/
def loadPolicyLineText (line : CasbinRule) : String :=
  jsToString line.ptype ++ ", " ++
    jsJoin ", " ([line.v0, line.v1, line.v2, line.v3, line.v4, line.v5].filter truthy)

/-! ## The engine side: policy model and line parser -/

/-- The `policy` array of one assertion: the rule tuples in order. -/
abbrev Policy := List (List String)

/-- One section of the model, a `Map` from rule type to assertion, in iteration
(insertion) order.  Only the `policy` of each assertion is kept. -/
abbrev AstMap := List (String × Policy)

/-- The `model.model` map from section name to section, in iteration order. -/
abbrev Model := List (String × AstMap)

/-- A `Map` has one entry per key. -/
def UniqueKeys {β : Type} (m : List (String × β)) : Prop := (m.map Prod.fst).Nodup

instance {β : Type} (m : List (String × β)) : Decidable (UniqueKeys m) := by
  unfold UniqueKeys; infer_instance

/-- White space and line terminators of ECMAScript, the characters `trim` strips. -/
def isJsWhiteSpace (c : Char) : Bool :=
  c.toNat = 0x09 || c.toNat = 0x0A || c.toNat = 0x0B || c.toNat = 0x0C || c.toNat = 0x0D ||
  c.toNat = 0x20 || c.toNat = 0xA0 || c.toNat = 0x1680 ||
  (0x2000 ≤ c.toNat && c.toNat ≤ 0x200A) ||
  c.toNat = 0x2028 || c.toNat = 0x2029 || c.toNat = 0x202F || c.toNat = 0x205F ||
  c.toNat = 0x3000 || c.toNat = 0xFEFF

/-- Method `String.prototype.trim` on the characters of a string. -/
def trimChars (cs : List Char) : List Char :=
  ((cs.dropWhile isJsWhiteSpace).reverse.dropWhile isJsWhiteSpace).reverse

/-- Method `String.prototype.trim`. -/
def jsTrim (s : String) : String := ⟨trimChars s.data⟩

/-- Split of a character list at every comma; `n` commas give `n + 1` pieces. -/
def splitCommaChars : List Char → List (List Char)
  | [] => [[]]
  | c :: cs =>
    if c = ',' then [] :: splitCommaChars cs
    else
      match splitCommaChars cs with
      | [] => [[c]]
      | t :: ts => (c :: t) :: ts

/-- Call `s.split(',')`. -/
def jsSplitComma (s : String) : List String := (splitCommaChars s.data).map String.mk

/-- Modelled from the spec: the engine's line parser is an external collaborator
(`Helper.loadPolicyLine` of the `casbin` package, not part of this repository).  Its
tokenisation is the one the specification names, split on `,` and trim every piece. -/
def parseRuleLine (text : String) : List String := (jsSplitComma text).map jsTrim

/-- Append of `rule` to the policy of the first entry with key `key`, if there is one. -/
def pushPolicy (key : String) (rule : List String) : AstMap → AstMap
  | [] => []
  | (k, pol) :: rest =>
    if k = key then (k, pol ++ [rule]) :: rest else (k, pol) :: pushPolicy key rule rest

/-- Append of `rule` to `model.get(sec).get(key).policy`, if both lookups succeed. -/
def pushRule (sec key : String) (rule : List String) : Model → Model
  | [] => []
  | (s, ast) :: rest =>
    if s = sec then (s, pushPolicy key rule ast) :: rest
    else (s, ast) :: pushRule sec key rule rest

/-- Modelled from the spec: `Helper.loadPolicyLine(text, model)` of the engine
("populate the model in place").  Empty lines and `#` comment lines are skipped; the first
token is the rule type, its first character names the section, and the remaining tokens
are appended as one rule to that rule type when the model has it. -/
def helperLoadPolicyLine (text : String) (model : Model) : Model :=
  if text = "" ∨ (jsTrim text).data.head? = some '#' then model
  else
    match parseRuleLine text with
    | [] => model
    | key :: fields => pushRule (String.mk (key.data.take 1)) key fields model

/-- Method `loadPolicyLine(line, model)`. -/
def loadPolicyLine (line : CasbinRule) (model : Model) : Model :=
  helperLoadPolicyLine (loadPolicyLineText line) model

/-! ## The store and the driver calls -/

/-- The named collection of the named database: `none` while the collection does not
exist, `some docs` with the documents in insertion order once it does. -/
structure Store where
  collection : Option (List CasbinRule)
deriving DecidableEq, Repr

/-- The documents of the collection; a collection that does not exist has none. -/
def Store.docs (s : Store) : List CasbinRule := s.collection.getD []

/-- Modelled from the spec: a query document matches a stored document when every property
present in the query is present in the document with the same value ("field-equality",
"unspecified fields act as wildcards").  The driver is not part of this repository. -/
def matchesQuery (q d : CasbinRule) : Bool :=
  let agrees : Option String → Option String → Bool := fun qf df =>
    match qf with
    | none => true
    | some x => df == some x
  agrees q.ptype d.ptype && agrees q.v0 d.v0 && agrees q.v1 d.v1 && agrees q.v2 d.v2 &&
  agrees q.v3 d.v3 && agrees q.v4 d.v4 && agrees q.v5 d.v5 &&
  agrees q.createdAt d.createdAt && agrees q.updatedAt d.updatedAt

/-- An opaque query filter of `find(filter)`: which documents it selects. -/
abbrev Filter := CasbinRule → Bool

/-- Modelled from the spec: `collection.find().toArray()`, every document. -/
def Store.find (s : Store) : List CasbinRule := s.docs

/-- Modelled from the spec: `collection.find(filter).toArray()`, the matching documents;
an `undefined` filter selects every document. -/
def Store.findFilter (s : Store) : Option Filter → List CasbinRule
  | none => s.docs
  | some f => s.docs.filter f

/-- Modelled from the spec: `collection.insertOne(doc)`, creating the collection on first
use. -/
def Store.insertOne (s : Store) (doc : CasbinRule) : Store := ⟨some (s.docs ++ [doc])⟩

/-- Modelled from the spec: `collection.insertMany(docs)`, one ordered bulk insert. -/
def Store.insertMany (s : Store) (docs : List CasbinRule) : Store := ⟨some (s.docs ++ docs)⟩

/-- Modelled from the spec: `collection.deleteOne(query)` deletes the first matching
document, and none when nothing matches (a completed call, not an error). -/
def Store.deleteOne (s : Store) (q : CasbinRule) : Store :=
  ⟨s.collection.map (fun ds => ds.eraseP (matchesQuery q))⟩

/-- Modelled from the spec: `collection.deleteMany(query)` deletes every matching
document. -/
def Store.deleteMany (s : Store) (q : CasbinRule) : Store :=
  ⟨s.collection.map (fun ds => ds.filter (fun d => !matchesQuery q d))⟩

/-- Modelled from the spec: listing the collections by this name gives a non-empty list
("list collections by name, drop if present"). -/
def Store.collectionListed (s : Store) : Bool := s.collection.isSome

/-- Modelled from the spec: `collection.drop()`. -/
def Store.drop (_s : Store) : Store := ⟨none⟩

/-! ## `adapter.js`: the operations -/

/-- Method `clearCollection()`: inside `try`, the collections are listed by name and the
collection is dropped when it is listed; `catch { return; }` swallows every failure.
`driverFails` is the outcome of the driver calls inside the `try` (`getDatabase`,
`listCollections`, `drop`): when one of them throws, the method returns normally and the
collection is left as it was. -/
def clearCollection (driverFails : Bool) (s : Store) : Store :=
  if driverFails then s
  else if s.collectionListed then s.drop else s

/-- The inner loop of `savePolicy`, `for (const rule of ast.policy) lines.push(...)`.  The
clock is read once per converted rule: `clock n` is the reading of conversion number `n`
of the call, and `lines.length` conversions have been made when a rule is converted. -/
def pushRuleLines (clock : Nat → String) (ptype : String) (policy : Policy)
    (lines : List CasbinRule) : List CasbinRule :=
  policy.foldl (fun acc rule => acc ++ [savePolicyLine (clock acc.length) ptype rule]) lines

/-- The outer loop of `savePolicy`, `for (const [ptype, ast] of astMap) ...`. -/
def pushSectionLines (clock : Nat → String) (astMap : AstMap) (lines : List CasbinRule) :
    List CasbinRule :=
  astMap.foldl (fun acc entry => pushRuleLines clock entry.1 entry.2 acc) lines

/-- Method `savePolicy(model)`: the returned flag and the store afterwards.  `clearFails`
is the outcome of the driver calls of `clearCollection`, whose failure is swallowed. -/
def savePolicy (clearFails : Bool) (clock : Nat → String) (s : Store) (model : Model) :
    Bool × Store :=
  let s := clearCollection clearFails s
  match model.lookup "p" with
  | none => (false, s)
  | some astMap =>
    let lines := pushSectionLines clock astMap []
    match model.lookup "g" with
    | none => (false, s)
    | some astMap =>
      let lines := pushSectionLines clock astMap lines
      if lines.length > 0 then (true, s.insertMany lines) else (true, s)

/-- Method `addPolicy(_sec, ptype, rule)`. -/
def addPolicy (now : String) (s : Store) (ptype : String) (rule : List String) : Store :=
  s.insertOne (savePolicyLine now ptype rule)

/-- Method `removePolicy(_sec, ptype, rule)`. -/
def removePolicy (s : Store) (ptype : String) (rule : List String) : Store :=
  s.deleteOne (deletePolicyLine ptype rule)

/-- The array `lines` of `addPolicies`: one conversion per rule, in order, conversion
number `n` reading `clock n`. -/
def addPoliciesLines (clock : Nat → String) (ptype : String) (rules : List (List String)) :
    List CasbinRule :=
  rules.foldl (fun acc r => acc ++ [savePolicyLine (clock acc.length) ptype r]) []

/-- Method `addPolicies(_sec, ptype, rules)`.  (The driver's refusal of an empty batch is
not modelled; an empty batch adds no document.) -/
def addPolicies (clock : Nat → String) (s : Store) (ptype : String)
    (rules : List (List String)) : Store :=
  s.insertMany (addPoliciesLines clock ptype rules)

/-- Method `removePolicies(_sec, ptype, rules)`: one `deleteOne` per rule.  The deletes
are issued in the order of `rules` and are applied here in that order. -/
def removePolicies (s : Store) (ptype : String) (rules : List (List String)) : Store :=
  let lines := rules.foldl (fun acc r => acc ++ [deletePolicyLine ptype r]) []
  lines.foldl (fun st line => st.deleteOne line) s

/-- Method `removeFilteredPolicy(_sec, ptype, fieldIndex, ...fieldValues)`. -/
def removeFilteredPolicy (s : Store) (ptype : String) (fieldIndex : Int)
    (fieldValues : List String) : Store :=
  s.deleteMany (removeFilteredPolicyLine ptype fieldIndex fieldValues)

/-- Method `loadFilteredPolicy(model, filter)` of an adapter whose `useFilter` flag is
`useFilter`: the model after every fetched line has been applied. -/
def loadFilteredPolicy (useFilter : Bool) (s : Store) (model : Model)
    (filter : Option Filter) : Model :=
  let lines := if useFilter then s.findFilter filter else s.find
  lines.foldl (fun m line => loadPolicyLine line m) model

/-- Method `loadPolicy(model)`: `loadFilteredPolicy(model)` with no filter argument. -/
def loadPolicy (useFilter : Bool) (s : Store) (model : Model) : Model :=
  loadFilteredPolicy useFilter s model none

/-- Method `isFiltered()`. -/
def isFiltered (useFilter : Bool) : Bool := useFilter

/-! ## Specification-side definitions

These follow the words of the specification; the theorems compare them with the
definitions taken from the source above. -/

/-- Record-shape invariant of the specification: the populated positional fields are a
contiguous run starting at field 0. -/
def PrefixInvariant (r : CasbinRule) : Prop :=
  ∃ k, k ≤ 6 ∧ ∀ i, i < 6 → ((r.field i).isSome = true ↔ i < k)

/-- The rules of one section in its traversal order, each with its rule type. -/
def sectionRules (astMap : AstMap) : List (String × List String) :=
  astMap.flatMap (fun entry => entry.2.map (fun rule => (entry.1, rule)))

/-- The partial pattern of the specification for `removeFilteredPolicy`: the type equals
the tag, and field `fieldIndex + i` equals `values[i]` for every position `i` whose
absolute index lies in `0..5`. -/
def FilterMatches (ptype : String) (fieldIndex : Int) (values : List String)
    (d : CasbinRule) : Prop :=
  d.ptype = some ptype ∧
  ∀ i : Fin values.length, 0 ≤ fieldIndex + (i : Nat) → fieldIndex + (i : Nat) < 6 →
    d.field (fieldIndex + (i : Nat)).toNat = some (values.get i)

instance (ptype : String) (fieldIndex : Int) (values : List String) (d : CasbinRule) :
    Decidable (FilterMatches ptype fieldIndex values d) := by
  unfold FilterMatches; infer_instance

/-- The rule line as the specification words it: the type, then `", "`, then every set
field in positional order joined by `", "`. -/
def claimedLineText (line : CasbinRule) : String :=
  jsToString line.ptype ++ ", " ++
    ", ".intercalate ((List.range 6).filterMap (fun k => line.field k))

/-- The fields that do reach the rule line: set and not the empty string, in positional
order. -/
def keptFields (line : CasbinRule) : List String :=
  (List.range 6).filterMap (fun k => (line.field k).filter (fun x => x != ""))

/-- A fresh model with the same sections and rule-type keys and no rules. -/
def freshModel (model : Model) : Model :=
  model.map (fun sec => (sec.1, sec.2.map (fun entry => (entry.1, ([] : Policy)))))

/-- The policy of rule type `key` in section `sec`: `model.get(sec)?.get(key)?.policy`. -/
def lookupPolicy (model : Model) (sec key : String) : Option Policy :=
  (model.lookup sec).bind (fun astMap => astMap.lookup key)

/-- A token survives `split(',')` and `trim` unchanged: no comma inside, no white space at
either end. -/
def CleanToken (x : String) : Prop :=
  ',' ∉ x.data ∧ x.data.head?.all (fun c => !isJsWhiteSpace c) = true ∧
    x.data.getLast?.all (fun c => !isJsWhiteSpace c) = true

instance (x : String) : Decidable (CleanToken x) := by
  unfold CleanToken; infer_instance

/-- A rule tuple the stored format can carry: one to six fields, each a non-empty clean
token. -/
def StorableRule (rule : List String) : Prop :=
  1 ≤ rule.length ∧ rule.length ≤ 6 ∧ ∀ x ∈ rule, x ≠ "" ∧ CleanToken x

instance (rule : List String) : Decidable (StorableRule rule) := by
  unfold StorableRule; infer_instance

/-- Every rule type of section `sec` is a clean token that begins with the section letter
(as `p`, `p2`, `g`, `g2` do) and every rule is storable; the keys are distinct, as the keys
of a `Map` always are. -/
def StorableSection (sec : String) (astMap : AstMap) : Prop :=
  UniqueKeys astMap ∧
  ∀ entry ∈ astMap, CleanToken entry.1 ∧ String.mk (entry.1.data.take 1) = sec ∧
    ∀ rule ∈ entry.2, StorableRule rule

instance (sec : String) (astMap : AstMap) : Decidable (StorableSection sec astMap) := by
  unfold StorableSection; infer_instance

/-- The records of a run of typed rules, rule number `i` of the run converted with the
clock reading `clock (start + i)`. -/
def stampedLines (clock : Nat → String) (start : Nat) :
    List (String × List String) → List CasbinRule
  | [] => []
  | r :: rest => savePolicyLine (clock start) r.1 r.2 :: stampedLines clock (start + 1) rest

/-- The characters of `x0, x1, ..., xn`: the pieces with `", "` between neighbours. -/
def joinCommaSpace : List (List Char) → List Char
  | [] => []
  | [x] => x
  | x :: y :: rest => x ++ ',' :: ' ' :: joinCommaSpace (y :: rest)

/-! ## `adapter.js`: opening the connection -/

/-- A line written through the logger. -/
inductive LogEntry where
  | info (msg : String)
  | error (msg : String)
deriving DecidableEq, Repr

/-- The outcomes of the driver calls that `newAdapter`, `open` and `createDBIndex` make;
`.error msg` is a call that throws (or rejects with) an error whose message is `msg`.
The driver is not part of this repository, so its outcomes are arbitrary. -/
structure Driver where
  /-- Outcome of `new MongoClient(uri, option)`. -/
  newClient : Except String Unit
  /-- Outcome of `mongoClient.connect()`. -/
  connect : Except String Unit
  /-- Outcome of `mongoClient.db(databaseName).collection(collectionName)` when the
  collection is obtained for the index on `name`. -/
  collection : String → Except String Unit
  /-- Outcome of `createIndex` for the single-field index on `name`. -/
  createIndex : String → Except String Unit

/-- Method `getCollection()`, called for the index on `name`: a failure of the driver is
replaced by the error `MongoDB is not connected`. -/
def getCollection (d : Driver) (name : String) : Except String Unit :=
  match d.collection name with
  | .ok c => .ok c
  | .error _ => .error "MongoDB is not connected"

/-- The array `indexFields` of `createDBIndex`. -/
def indexFields : List String := ["ptype", "v0", "v1", "v2", "v3", "v4", "v5"]

/-- The loop `for (const name of indexFields) await this.getCollection().createIndex(...)`:
it stops at the first call that throws. -/
def createIndexLoop (d : Driver) : List String → Except String Unit
  | [] => .ok ()
  | name :: rest =>
    match getCollection d name with
    | .error e => .error e
    | .ok _ =>
      match d.createIndex name with
      | .error e => .error e
      | .ok _ => createIndexLoop d rest

/-- Method `createDBIndex()`: the loop inside `try`, `logger.info` after it, and a `catch`
that only logs.  The result is the outcome of the call with the lines it logged. -/
def createDBIndex (d : Driver) : Except String (List LogEntry) :=
  match createIndexLoop d indexFields with
  | .ok _ => .ok [LogEntry.info "Indexes created"]
  | .error e => .ok [LogEntry.error e]

/-- Method `open()`: `connect` then `createDBIndex` inside `try`; the `catch` rethrows
`new Error(error.message)`. -/
def openAdapter (d : Driver) : Except String (List LogEntry) :=
  let body : Except String (List LogEntry) :=
    match d.connect with
    | .error e => .error e
    | .ok _ => createDBIndex d
  match body with
  | .ok log => .ok log
  | .error message => .error message

/-- The constructor followed by `open()`, as `newAdapter(adapterOption)` runs them: a falsy
`uri` throws, a failure of `new MongoClient` is rethrown with its message, then the
connection is opened. -/
def newAdapter (uri : String) (d : Driver) : Except String (List LogEntry) :=
  if uri = "" then .error "you must provide mongo URI to connect to!"
  else
    match d.newClient with
    | .error message => .error message
    | .ok _ => openAdapter d

/-- The record with both timestamp properties removed. -/
def CasbinRule.withoutTimestamps (r : CasbinRule) : CasbinRule :=
  { r with createdAt := none, updatedAt := none }

/-! ## Theorems -/

/-! ### The record of `removeFilteredPolicy` -/

theorem jsIndex_of_guard (xs : List String) (fieldIndex : Int) (k : Nat)
    (h1 : fieldIndex ≤ k) (h2 : (k : Int) < fieldIndex + xs.length) :
    ∃ h : ((k : Int) - fieldIndex).toNat < xs.length,
      jsIndex xs ((k : Int) - fieldIndex) = some (xs.get ⟨((k : Int) - fieldIndex).toNat, h⟩) := by
  have h : ((k : Int) - fieldIndex).toNat < xs.length := by omega
  refine ⟨h, ?_⟩
  unfold jsIndex
  rw [if_neg (by omega)]
  simp [List.getElem?_eq_getElem h]

theorem removeFilteredPolicyLine_field (ptype : String) (fieldIndex : Int)
    (fieldValues : List String) (k : Nat) (hk : k < 6) :
    (removeFilteredPolicyLine ptype fieldIndex fieldValues).field k =
      if fieldIndex ≤ k ∧ (k : Int) < fieldIndex + fieldValues.length then
        jsIndex fieldValues ((k : Int) - fieldIndex) else none := by
  interval_cases k
  · simp only [removeFilteredPolicyLine, CasbinRule.field, apply_ite CasbinRule.v0, ite_self]
    rfl
  · simp only [removeFilteredPolicyLine, CasbinRule.field, apply_ite CasbinRule.v1, ite_self]
    rfl
  · simp only [removeFilteredPolicyLine, CasbinRule.field, apply_ite CasbinRule.v2, ite_self]
    rfl
  · simp only [removeFilteredPolicyLine, CasbinRule.field, apply_ite CasbinRule.v3, ite_self]
    rfl
  · simp only [removeFilteredPolicyLine, CasbinRule.field, apply_ite CasbinRule.v4, ite_self]
    rfl
  · simp only [removeFilteredPolicyLine, CasbinRule.field, apply_ite CasbinRule.v5, ite_self]
    rfl

theorem removeFilteredPolicyLine_ptype (ptype : String) (fieldIndex : Int)
    (fieldValues : List String) :
    (removeFilteredPolicyLine ptype fieldIndex fieldValues).ptype = some ptype ∧
    (removeFilteredPolicyLine ptype fieldIndex fieldValues).createdAt = none ∧
    (removeFilteredPolicyLine ptype fieldIndex fieldValues).updatedAt = none := by
  refine ⟨?_, ?_, ?_⟩
  · simp only [removeFilteredPolicyLine, apply_ite CasbinRule.ptype, ite_self]
  · simp only [removeFilteredPolicyLine, apply_ite CasbinRule.createdAt, ite_self]
  · simp only [removeFilteredPolicyLine, apply_ite CasbinRule.updatedAt, ite_self]

/-- C1: the partial-match record that `removeFilteredPolicy` hands to `deleteMany` has
`ptype` equal to the type tag, no timestamps, and for each `k` in `0..5` the property
`v<k>` is set exactly when `fieldIndex <= k < fieldIndex + fieldValues.length`, in which
case it is `fieldValues[k - fieldIndex]`.  (The record type has no further properties, so
values whose absolute index falls outside `0..5` are dropped.) -/
theorem removeFilteredPolicyLine_shape (ptype : String) (fieldIndex : Int)
    (fieldValues : List String) :
    (removeFilteredPolicyLine ptype fieldIndex fieldValues).ptype = some ptype ∧
    (removeFilteredPolicyLine ptype fieldIndex fieldValues).createdAt = none ∧
    (removeFilteredPolicyLine ptype fieldIndex fieldValues).updatedAt = none ∧
    ∀ k : Nat, k < 6 →
      (((removeFilteredPolicyLine ptype fieldIndex fieldValues).field k).isSome = true ↔
        (fieldIndex ≤ k ∧ (k : Int) < fieldIndex + fieldValues.length)) ∧
      (fieldIndex ≤ k → (k : Int) < fieldIndex + fieldValues.length →
        ∃ h : ((k : Int) - fieldIndex).toNat < fieldValues.length,
          (removeFilteredPolicyLine ptype fieldIndex fieldValues).field k =
            some (fieldValues.get ⟨((k : Int) - fieldIndex).toNat, h⟩)) := by
  obtain ⟨h1, h2, h3⟩ := removeFilteredPolicyLine_ptype ptype fieldIndex fieldValues
  refine ⟨h1, h2, h3, ?_⟩
  intro k hk
  rw [removeFilteredPolicyLine_field ptype fieldIndex fieldValues k hk]
  constructor
  · constructor
    · intro h
      by_contra hc
      rw [if_neg hc] at h
      simp at h
    · intro h
      rw [if_pos h]
      obtain ⟨_, e⟩ := jsIndex_of_guard fieldValues fieldIndex k h.1 h.2
      rw [e]; rfl
  · intro h1 h2
    rw [if_pos ⟨h1, h2⟩]
    exact jsIndex_of_guard fieldValues fieldIndex k h1 h2

/-! ### The record conversions -/

theorem foldl_setField_ptype (l : List (Nat × String)) (line : CasbinRule) :
    (l.foldl (fun l p => l.setField p.1 p.2) line).ptype = line.ptype ∧
    (l.foldl (fun l p => l.setField p.1 p.2) line).createdAt = line.createdAt ∧
    (l.foldl (fun l p => l.setField p.1 p.2) line).updatedAt = line.updatedAt := by
  induction l generalizing line with
  | nil => exact ⟨rfl, rfl, rfl⟩
  | cons p rest ih =>
    simp only [List.foldl_cons]
    obtain ⟨h1, h2, h3⟩ := ih (line.setField p.1 p.2)
    rw [h1, h2, h3]
    unfold CasbinRule.setField
    split <;> exact ⟨rfl, rfl, rfl⟩

theorem populateCasbinRule_ptype (line : CasbinRule) (ptype : String) (rule : List String) :
    (populateCasbinRule line ptype rule).ptype = some ptype ∧
    (populateCasbinRule line ptype rule).createdAt = line.createdAt ∧
    (populateCasbinRule line ptype rule).updatedAt = line.updatedAt := by
  unfold populateCasbinRule
  exact foldl_setField_ptype _ _

theorem populateCasbinRule_field (line : CasbinRule) (ptype : String) (rule : List String)
    (k : Nat) (hk : k < 6) :
    (populateCasbinRule line ptype rule).field k =
      if k < rule.length then rule[k]? else line.field k := by
  rcases rule with _ | ⟨a, _ | ⟨b, _ | ⟨c, _ | ⟨d, _ | ⟨e, _ | ⟨f, rest⟩⟩⟩⟩⟩⟩ <;>
    interval_cases k <;>
    simp [populateCasbinRule, List.enum, List.enumFrom, CasbinRule.setField, CasbinRule.field]

theorem createCasbinRule_field (b : Bool) (now : String) (k : Nat) :
    (createCasbinRule b now).field k = none := by
  unfold createCasbinRule CasbinRule.field
  cases b <;> simp <;> split <;> rfl

theorem savePolicyLine_field (now ptype : String) (rule : List String) (k : Nat) (hk : k < 6) :
    (savePolicyLine now ptype rule).field k = if k < rule.length then rule[k]? else none := by
  unfold savePolicyLine
  rw [populateCasbinRule_field _ _ _ k hk, createCasbinRule_field]

theorem deletePolicyLine_field (ptype : String) (rule : List String) (k : Nat) (hk : k < 6) :
    (deletePolicyLine ptype rule).field k = if k < rule.length then rule[k]? else none := by
  unfold deletePolicyLine
  rw [populateCasbinRule_field _ _ _ k hk, createCasbinRule_field]

theorem prefixInvariant_of_field (r : CasbinRule) (rule : List String)
    (h : ∀ k, k < 6 → r.field k = if k < rule.length then rule[k]? else none) :
    PrefixInvariant r := by
  refine ⟨min rule.length 6, Nat.min_le_right _ _, ?_⟩
  intro i hi
  rw [h i hi]
  by_cases hl : i < rule.length
  · rw [if_pos hl, List.getElem?_eq_getElem hl]
    simp [hl, hi]
  · rw [if_neg hl]
    simp
    omega

theorem savePolicyLine_prefixInvariant (now ptype : String) (rule : List String) :
    PrefixInvariant (savePolicyLine now ptype rule) :=
  prefixInvariant_of_field _ rule (savePolicyLine_field now ptype rule)


/-! ### The loops of `savePolicy` and `addPolicies` -/

theorem stampedLines_append (clock : Nat → String) (n : Nat)
    (a b : List (String × List String)) :
    stampedLines clock n (a ++ b) = stampedLines clock n a ++ stampedLines clock (n + a.length) b := by
  induction a generalizing n with
  | nil => simp [stampedLines]
  | cons r rest ih =>
    have e : n + 1 + rest.length = n + (rest.length + 1) := by omega
    show savePolicyLine (clock n) r.1 r.2 :: stampedLines clock (n + 1) (rest ++ b) = _
    rw [ih, e]
    rfl

theorem length_stampedLines (clock : Nat → String) (n : Nat) (a : List (String × List String)) :
    (stampedLines clock n a).length = a.length := by
  induction a generalizing n with
  | nil => rfl
  | cons r rest ih => simp [stampedLines, ih]

theorem getElem?_stampedLines (clock : Nat → String) (n : Nat)
    (a : List (String × List String)) (i : Nat) :
    (stampedLines clock n a)[i]? =
      (a[i]?).map (fun r => savePolicyLine (clock (n + i)) r.1 r.2) := by
  induction a generalizing n i with
  | nil => simp [stampedLines]
  | cons r rest ih =>
    cases i with
    | zero => simp [stampedLines]
    | succ j =>
      simp only [stampedLines, List.getElem?_cons_succ, ih]
      rw [show n + 1 + j = n + (j + 1) by omega]

theorem pushRuleLines_eq (clock : Nat → String) (ptype : String) (policy : Policy)
    (lines : List CasbinRule) :
    pushRuleLines clock ptype policy lines =
      lines ++ stampedLines clock lines.length (policy.map (fun rule => (ptype, rule))) := by
  unfold pushRuleLines
  induction policy generalizing lines with
  | nil => simp [stampedLines]
  | cons r rest ih =>
    simp only [List.foldl_cons, List.map_cons, stampedLines]
    rw [ih]
    simp

theorem pushSectionLines_eq (clock : Nat → String) (astMap : AstMap) (lines : List CasbinRule) :
    pushSectionLines clock astMap lines =
      lines ++ stampedLines clock lines.length (sectionRules astMap) := by
  unfold pushSectionLines sectionRules
  induction astMap generalizing lines with
  | nil => simp [stampedLines]
  | cons e rest ih =>
    simp only [List.foldl_cons, List.flatMap_cons]
    rw [ih, pushRuleLines_eq, stampedLines_append]
    simp [length_stampedLines]

theorem addPoliciesLines_eq (clock : Nat → String) (ptype : String) (rules : List (List String)) :
    addPoliciesLines clock ptype rules =
      stampedLines clock 0 (rules.map (fun rule => (ptype, rule))) := by
  have h := pushRuleLines_eq clock ptype rules []
  simpa [pushRuleLines, addPoliciesLines] using h

theorem length_sectionRules (astMap : AstMap) :
    (sectionRules astMap).length = (astMap.map (fun entry => entry.2.length)).sum := by
  unfold sectionRules
  induction astMap with
  | nil => rfl
  | cons e rest ih => simp [List.flatMap_cons, ih]

theorem stampedLines_prefixInvariant (clock : Nat → String) (n : Nat)
    (a : List (String × List String)) :
    ∀ d ∈ stampedLines clock n a, PrefixInvariant d := by
  induction a generalizing n with
  | nil => intro d hd; simp [stampedLines] at hd
  | cons r rest ih =>
    intro d hd
    simp only [stampedLines, List.mem_cons] at hd
    rcases hd with rfl | hd
    · exact savePolicyLine_prefixInvariant _ _ _
    · exact ih _ d hd

theorem clearCollection_ok (s : Store) : clearCollection false s = ⟨none⟩ := by
  rcases s with ⟨_ | ds⟩ <;> rfl

theorem clearCollection_fails (s : Store) : clearCollection true s = s := rfl

theorem clearCollection_docs_nil (clearFails : Bool) (s : Store)
    (h : clearFails = false ∨ s.docs = []) : (clearCollection clearFails s).docs = [] := by
  cases clearFails with
  | false => rw [clearCollection_ok]; rfl
  | true =>
    rcases h with h | h
    · cases h
    · rw [clearCollection_fails]; exact h

theorem savePolicy_eq (clearFails : Bool) (clock : Nat → String) (s : Store) (model : Model)
    (p g : AstMap) (hp : model.lookup "p" = some p) (hg : model.lookup "g" = some g) :
    (savePolicy clearFails clock s model).1 = true ∧
    (savePolicy clearFails clock s model).2.docs =
      (clearCollection clearFails s).docs ++
        stampedLines clock 0 (sectionRules p ++ sectionRules g) := by
  have hl : pushSectionLines clock g (pushSectionLines clock p []) =
      stampedLines clock 0 (sectionRules p ++ sectionRules g) := by
    rw [pushSectionLines_eq, pushSectionLines_eq, stampedLines_append]
    simp [length_stampedLines]
  unfold savePolicy
  simp only [hp, hg, hl]
  split
  · exact ⟨rfl, by simp [Store.insertMany, Store.docs]⟩
  · rename_i h
    refine ⟨rfl, ?_⟩
    have : stampedLines clock 0 (sectionRules p ++ sectionRules g) = [] := by
      apply List.eq_nil_of_length_eq_zero
      omega
    rw [this, List.append_nil]

theorem savePolicy_of_missing (clearFails : Bool) (clock : Nat → String) (s : Store)
    (model : Model) (h : model.lookup "p" = none ∨ model.lookup "g" = none) :
    savePolicy clearFails clock s model = (false, clearCollection clearFails s) := by
  unfold savePolicy
  rcases h with h | h
  · simp only [h]
  · cases hp : model.lookup "p" with
    | none => simp only []
    | some p => simp only [h]

theorem savePolicy_docs_written (clearFails : Bool) (clock : Nat → String) (s : Store)
    (model : Model) :
    ∃ written, (savePolicy clearFails clock s model).2.docs =
        (clearCollection clearFails s).docs ++ written ∧
      ∀ d ∈ written, PrefixInvariant d := by
  cases hp : model.lookup "p" with
  | none =>
    rw [savePolicy_of_missing clearFails clock s model (Or.inl hp)]
    exact ⟨[], by simp, by simp⟩
  | some p =>
    cases hg : model.lookup "g" with
    | none =>
      rw [savePolicy_of_missing clearFails clock s model (Or.inr hg)]
      exact ⟨[], by simp, by simp⟩
    | some g =>
      exact ⟨_, (savePolicy_eq clearFails clock s model p g hp hg).2,
        stampedLines_prefixInvariant _ _ _⟩

/-- C4 (counterexample): the drop of the old collection fails and `clearCollection`
swallows the failure.  `savePolicy` still inserts and returns `true`, and the collection
then holds the stale record in front of the three records of the model: four records for
three rules. -/
theorem savePolicy_keeps_stale_when_clear_fails :
    List.lookup "p" ([("p", [("p", [["alice", "data1", "read"], ["bob", "data2", "write"]])]),
      ("g", [("g", [["alice", "admin"]])])] : Model) =
        some [("p", [["alice", "data1", "read"], ["bob", "data2", "write"]])] ∧
    List.lookup "g" ([("p", [("p", [["alice", "data1", "read"], ["bob", "data2", "write"]])]),
      ("g", [("g", [["alice", "admin"]])])] : Model) = some [("g", [["alice", "admin"]])] ∧
    (savePolicy true (fun _ => "t") ⟨some [{ ptype := some "p", v0 := some "old" }]⟩
        [("p", [("p", [["alice", "data1", "read"], ["bob", "data2", "write"]])]),
         ("g", [("g", [["alice", "admin"]])])]).1 = true ∧
    (savePolicy true (fun _ => "t") ⟨some [{ ptype := some "p", v0 := some "old" }]⟩
        [("p", [("p", [["alice", "data1", "read"], ["bob", "data2", "write"]])]),
         ("g", [("g", [["alice", "admin"]])])]).2.docs =
      [{ ptype := some "p", v0 := some "old" },
       savePolicyLine "t" "p" ["alice", "data1", "read"],
       savePolicyLine "t" "p" ["bob", "data2", "write"],
       savePolicyLine "t" "g" ["alice", "admin"]] ∧
    (savePolicy true (fun _ => "t") ⟨some [{ ptype := some "p", v0 := some "old" }]⟩
        [("p", [("p", [["alice", "data1", "read"], ["bob", "data2", "write"]])]),
         ("g", [("g", [["alice", "admin"]])])]).2.docs.length ≠ 2 + 1 := by
  decide

/-- C4 (amended): overwrite semantics of `savePolicy`.  For every store and every model
with both sections the call returns `true` and writes exactly one record per rule, after
whatever `clearCollection` left: written record number `i` is the conversion of rule
number `i` of the run "all rules of section p in traversal order, then all rules of
section g", and the number of written records is the total number of rules of the two
sections.  When the driver calls of `clearCollection` succeed nothing is left, so the
collection holds exactly these records and nothing of its previous contents; when one of
them fails the failure is swallowed and the previous contents stay in front. -/
theorem savePolicy_overwrites (clearFails : Bool) (clock : Nat → String) (s : Store)
    (model : Model) (p g : AstMap)
    (hp : model.lookup "p" = some p) (hg : model.lookup "g" = some g) :
    (savePolicy clearFails clock s model).1 = true ∧
    (∃ written,
      (savePolicy clearFails clock s model).2.docs =
        (clearCollection clearFails s).docs ++ written ∧
      written.length =
        (p.map (fun entry => entry.2.length)).sum + (g.map (fun entry => entry.2.length)).sum ∧
      ∀ i : Nat, written[i]? =
        ((sectionRules p ++ sectionRules g)[i]?).map
          (fun r => savePolicyLine (clock i) r.1 r.2)) ∧
    (clearFails = true → (clearCollection clearFails s).docs = s.docs) ∧
    (clearFails = false →
      (savePolicy clearFails clock s model).2.docs.length =
        (p.map (fun entry => entry.2.length)).sum + (g.map (fun entry => entry.2.length)).sum ∧
      ∀ i : Nat, (savePolicy clearFails clock s model).2.docs[i]? =
        ((sectionRules p ++ sectionRules g)[i]?).map
          (fun r => savePolicyLine (clock i) r.1 r.2)) := by
  obtain ⟨h1, h2⟩ := savePolicy_eq clearFails clock s model p g hp hg
  have hlen : (stampedLines clock 0 (sectionRules p ++ sectionRules g)).length =
      (p.map (fun entry => entry.2.length)).sum + (g.map (fun entry => entry.2.length)).sum := by
    rw [length_stampedLines, List.length_append, length_sectionRules, length_sectionRules]
  have hget : ∀ i : Nat, (stampedLines clock 0 (sectionRules p ++ sectionRules g))[i]? =
      ((sectionRules p ++ sectionRules g)[i]?).map
        (fun r => savePolicyLine (clock i) r.1 r.2) := by
    intro i
    rw [getElem?_stampedLines, Nat.zero_add]
  refine ⟨h1, ⟨_, h2, hlen, hget⟩, ?_, ?_⟩
  · intro h
    rw [h, clearCollection_fails]
  · intro h
    rw [h2, clearCollection_docs_nil clearFails s (Or.inl h), List.nil_append]
    exact ⟨hlen, hget⟩

/-- Witness for C4 (amended): a store with one stale record, a model with two `p` rules
and one `g` rule, and a drop that succeeds. -/
theorem savePolicy_overwrites_witness :
    (savePolicy false (fun _ => "t") ⟨some [{ ptype := some "p", v0 := some "old" }]⟩
        [("p", [("p", [["alice", "data1", "read"], ["bob", "data2", "write"]])]),
         ("g", [("g", [["alice", "admin"]])])]).2.docs.length = 2 + 1 :=
  ((savePolicy_overwrites false (fun _ => "t")
    ⟨some [{ ptype := some "p", v0 := some "old" }]⟩
    [("p", [("p", [["alice", "data1", "read"], ["bob", "data2", "write"]])]),
     ("g", [("g", [["alice", "admin"]])])]
    [("p", [["alice", "data1", "read"], ["bob", "data2", "write"]])]
    [("g", [["alice", "admin"]])] (by decide) (by decide)).2.2.2 rfl).1

/-- C2: `savePolicy` at the failing input, a collection holding one record, a model with a
`p` section but no `g` section, and a drop that succeeds.  The call returns `false` and has
inserted nothing, yet the record that was there before the call is gone: the contents
after the call are not the contents before it, because `clearCollection` runs ahead of the
two guards that abort the save. -/
theorem savePolicy_missing_section_drops :
    List.lookup "g" ([("p", [("p", [["alice", "data1", "read"]])])] : Model) = none ∧
    (savePolicy false (fun _ => "t") ⟨some [{ ptype := some "p", v0 := some "bob" }]⟩
      [("p", [("p", [["alice", "data1", "read"]])])]).1 = false ∧
    (savePolicy false (fun _ => "t") ⟨some [{ ptype := some "p", v0 := some "bob" }]⟩
      [("p", [("p", [["alice", "data1", "read"]])])]).2.docs = [] ∧
    (savePolicy false (fun _ => "t") ⟨some [{ ptype := some "p", v0 := some "bob" }]⟩
      [("p", [("p", [["alice", "data1", "read"]])])]).2.docs ≠
      (Store.mk (some [{ ptype := some "p", v0 := some "bob" }])).docs := by
  decide

theorem deletePolicyLine_prefixInvariant (ptype : String) (rule : List String) :
    PrefixInvariant (deletePolicyLine ptype rule) :=
  prefixInvariant_of_field _ rule (deletePolicyLine_field ptype rule)

theorem savePolicy_docs_prefixInvariant (clock : Nat → String) (s : Store) (model : Model) :
    ∀ d ∈ (savePolicy false clock s model).2.docs, PrefixInvariant d := by
  obtain ⟨written, h1, h2⟩ := savePolicy_docs_written false clock s model
  rw [h1, clearCollection_docs_nil false s (Or.inl rfl), List.nil_append]
  exact h2

/-- C10: record-shape invariant.  For every type tag and rule tuple, with
`k = min(len(rule), 6)`, the record of the add/save conversion (`savePolicyLine`) and the
record of the remove conversion (`deletePolicyLine`) have field `i` equal to `rule[i]` for
every `i < k` and fields `k..5` unset, so their populated fields are a contiguous run from
field 0; consequently every record written by `addPolicy`, `addPolicies` and `savePolicy`
satisfies the invariant: after a `savePolicy` whose drop succeeded every record of the
collection does, and in every case the collection is what `clearCollection` left followed
by written records that do. -/
theorem conversions_prefixInvariant (now ptype : String) (rule : List String) :
    (∀ i, i < 6 →
      (∀ h : i < rule.length,
        (savePolicyLine now ptype rule).field i = some (rule.get ⟨i, h⟩) ∧
        (deletePolicyLine ptype rule).field i = some (rule.get ⟨i, h⟩)) ∧
      (min rule.length 6 ≤ i →
        (savePolicyLine now ptype rule).field i = none ∧
        (deletePolicyLine ptype rule).field i = none)) ∧
    PrefixInvariant (savePolicyLine now ptype rule) ∧
    PrefixInvariant (deletePolicyLine ptype rule) ∧
    (∀ s : Store, ∃ d, (addPolicy now s ptype rule).docs = s.docs ++ [d] ∧ PrefixInvariant d) ∧
    (∀ (clock : Nat → String) (s : Store) (rules : List (List String)),
      ∃ ds, (addPolicies clock s ptype rules).docs = s.docs ++ ds ∧
        ∀ d ∈ ds, PrefixInvariant d) ∧
    (∀ (clock : Nat → String) (s : Store) (model : Model),
      ∀ d ∈ (savePolicy false clock s model).2.docs, PrefixInvariant d) ∧
    (∀ (clearFails : Bool) (clock : Nat → String) (s : Store) (model : Model),
      ∃ written, (savePolicy clearFails clock s model).2.docs =
          (clearCollection clearFails s).docs ++ written ∧
        ∀ d ∈ written, PrefixInvariant d) := by
  refine ⟨?_, savePolicyLine_prefixInvariant _ _ _, deletePolicyLine_prefixInvariant _ _,
    ?_, ?_, savePolicy_docs_prefixInvariant, savePolicy_docs_written⟩
  · intro i hi
    rw [savePolicyLine_field now ptype rule i hi, deletePolicyLine_field ptype rule i hi]
    constructor
    · intro h
      rw [if_pos h, List.getElem?_eq_getElem h]
      exact ⟨rfl, rfl⟩
    · intro h
      rw [if_neg (by omega)]
      exact ⟨rfl, rfl⟩
  · intro s
    exact ⟨_, rfl, savePolicyLine_prefixInvariant _ _ _⟩
  · intro clock s rules
    refine ⟨addPoliciesLines clock ptype rules, rfl, ?_⟩
    rw [addPoliciesLines_eq]
    exact stampedLines_prefixInvariant _ _ _


/-! ### Query matching -/

theorem matchesQuery_iff (q d : CasbinRule) :
    matchesQuery q d = true ↔
      (∀ x, q.ptype = some x → d.ptype = some x) ∧
      (∀ k, k < 6 → ∀ x, q.field k = some x → d.field k = some x) ∧
      (∀ x, q.createdAt = some x → d.createdAt = some x) ∧
      (∀ x, q.updatedAt = some x → d.updatedAt = some x) := by
  have agree : ∀ qf df : Option String,
      (match qf with
        | none => true
        | some x => df == some x) = true ↔ ∀ x, qf = some x → df = some x := by
    intro qf df
    cases qf with
    | none => simp
    | some y => simp
  have fields : (∀ k, k < 6 → ∀ x, q.field k = some x → d.field k = some x) ↔
      (∀ x, q.v0 = some x → d.v0 = some x) ∧ (∀ x, q.v1 = some x → d.v1 = some x) ∧
      (∀ x, q.v2 = some x → d.v2 = some x) ∧ (∀ x, q.v3 = some x → d.v3 = some x) ∧
      (∀ x, q.v4 = some x → d.v4 = some x) ∧ (∀ x, q.v5 = some x → d.v5 = some x) := by
    constructor
    · intro h
      exact ⟨h 0 (by omega), h 1 (by omega), h 2 (by omega), h 3 (by omega), h 4 (by omega),
        h 5 (by omega)⟩
    · rintro ⟨h0, h1, h2, h3, h4, h5⟩ k hk
      interval_cases k
      · exact h0
      · exact h1
      · exact h2
      · exact h3
      · exact h4
      · exact h5
  rw [fields]
  unfold matchesQuery
  simp only [Bool.and_eq_true, agree]
  tauto

theorem matchesQuery_deletePolicyLine_iff (ptype : String) (rule : List String)
    (d : CasbinRule) :
    matchesQuery (deletePolicyLine ptype rule) d = true ↔
      d.ptype = some ptype ∧ ∀ k, k < 6 → k < rule.length → d.field k = rule[k]? := by
  rw [matchesQuery_iff]
  obtain ⟨hp, hc, hu⟩ := populateCasbinRule_ptype (createCasbinRule false "") ptype rule
  have hc2 : (deletePolicyLine ptype rule).createdAt = none := by
    unfold deletePolicyLine; rw [hc]; rfl
  have hu2 : (deletePolicyLine ptype rule).updatedAt = none := by
    unfold deletePolicyLine; rw [hu]; rfl
  have hp2 : (deletePolicyLine ptype rule).ptype = some ptype := hp
  rw [hc2, hu2, hp2]
  constructor
  · rintro ⟨h1, h2, _, _⟩
    refine ⟨h1 ptype rfl, ?_⟩
    intro k hk hl
    have := h2 k hk (rule.get ⟨k, hl⟩)
      (by rw [deletePolicyLine_field ptype rule k hk, if_pos hl, List.getElem?_eq_getElem hl]
          rfl)
    rw [this, List.getElem?_eq_getElem hl]
    rfl
  · rintro ⟨h1, h2⟩
    refine ⟨?_, ?_, by simp, by simp⟩
    · intro x hx
      cases hx
      exact h1
    · intro k hk x hx
      rw [deletePolicyLine_field ptype rule k hk] at hx
      by_cases hl : k < rule.length
      · rw [if_pos hl] at hx
        rw [h2 k hk hl, hx]
      · rw [if_neg hl] at hx
        cases hx

theorem savePolicyLine_matches_deletePolicyLine (now ptype : String) (rule : List String) :
    matchesQuery (deletePolicyLine ptype rule) (savePolicyLine now ptype rule) = true := by
  rw [matchesQuery_deletePolicyLine_iff]
  refine ⟨(populateCasbinRule_ptype _ ptype rule).1, ?_⟩
  intro k hk hl
  rw [savePolicyLine_field now ptype rule k hk, if_pos hl]

/-- C6: for every store, type tag and rule tuple, `addPolicy` followed by `removePolicy`
with the identical tag and tuple leaves the number of records equal to the number before
the add: the record inserted with timestamps matches the timestamp-free delete pattern
built from the same tuple, so `deleteOne` removes exactly one record. -/
theorem addPolicy_removePolicy_count (now : String) (s : Store) (ptype : String)
    (rule : List String) :
    matchesQuery (deletePolicyLine ptype rule) (savePolicyLine now ptype rule) = true ∧
    (addPolicy now s ptype rule).docs.length = s.docs.length + 1 ∧
    (removePolicy (addPolicy now s ptype rule) ptype rule).docs.length = s.docs.length := by
  refine ⟨savePolicyLine_matches_deletePolicyLine now ptype rule, ?_, ?_⟩
  · simp [addPolicy, Store.insertOne, Store.docs]
  · have hm : savePolicyLine now ptype rule ∈ s.docs ++ [savePolicyLine now ptype rule] := by
      simp
    have := List.length_eraseP_of_mem hm (savePolicyLine_matches_deletePolicyLine now ptype rule)
    simp only [removePolicy, addPolicy, Store.insertOne, Store.deleteOne, Store.docs,
      Option.map_some', Option.getD_some]
    simp only [Store.docs] at this
    rw [this]
    simp


/-! ### `removeFilteredPolicy` -/

theorem jsIndex_natCast (xs : List String) (n : Nat) : jsIndex xs (n : Int) = xs[n]? := by
  unfold jsIndex
  rw [if_neg (by omega)]
  simp

theorem matchesQuery_removeFilteredPolicyLine_iff (ptype : String) (fieldIndex : Int)
    (values : List String) (d : CasbinRule) :
    matchesQuery (removeFilteredPolicyLine ptype fieldIndex values) d = true ↔
      FilterMatches ptype fieldIndex values d := by
  rw [matchesQuery_iff]
  obtain ⟨hp, hc, hu⟩ := removeFilteredPolicyLine_ptype ptype fieldIndex values
  rw [hp, hc, hu]
  unfold FilterMatches
  constructor
  · rintro ⟨h1, h2, _, _⟩
    refine ⟨h1 ptype rfl, ?_⟩
    intro i h0 h6
    have hk : (fieldIndex + (i : Nat)).toNat < 6 := by omega
    have hi : i.1 < values.length := i.2
    apply h2 _ hk
    rw [removeFilteredPolicyLine_field ptype fieldIndex values _ hk, if_pos (by omega)]
    have e : (((fieldIndex + (i : Nat)).toNat : Nat) : Int) - fieldIndex = ((i : Nat) : Int) := by
      omega
    rw [e, jsIndex_natCast, List.getElem?_eq_getElem hi]
    rfl
  · rintro ⟨h1, h2⟩
    refine ⟨?_, ?_, by simp, by simp⟩
    · intro x hx
      cases hx
      exact h1
    · intro k hk x hx
      rw [removeFilteredPolicyLine_field ptype fieldIndex values k hk] at hx
      by_cases hg : fieldIndex ≤ k ∧ (k : Int) < fieldIndex + values.length
      · rw [if_pos hg] at hx
        have hi : ((k : Int) - fieldIndex).toNat < values.length := by omega
        have e : (k : Int) - fieldIndex = ((((k : Int) - fieldIndex).toNat : Nat) : Int) := by
          omega
        rw [e, jsIndex_natCast, List.getElem?_eq_getElem hi] at hx
        have h := h2 ⟨((k : Int) - fieldIndex).toNat, hi⟩ (by simp only []; omega)
          (by simp only []; omega)
        have e2 : (fieldIndex + ((((k : Int) - fieldIndex).toNat : Nat) : Int)).toNat = k := by
          omega
        simp only [e2] at h
        rw [h, ← hx]
        rfl
      · rw [if_neg hg] at hx
        cases hx

theorem deleteMany_docs (s : Store) (q : CasbinRule) :
    (s.deleteMany q).docs = s.docs.filter (fun d => !matchesQuery q d) := by
  rcases s with ⟨_ | ds⟩ <;> rfl

theorem filterMatches_alice_data1 (ptype : String) (d : CasbinRule) :
    FilterMatches ptype 0 ["alice", "data1"] d ↔
      d.ptype = some ptype ∧ d.v0 = some "alice" ∧ d.v1 = some "data1" := by
  unfold FilterMatches
  constructor
  · rintro ⟨h1, h2⟩
    have a := h2 ⟨0, by decide⟩ (by decide) (by decide)
    have b := h2 ⟨1, by decide⟩ (by decide) (by decide)
    exact ⟨h1, a, b⟩
  · rintro ⟨h1, h2, h3⟩
    refine ⟨h1, ?_⟩
    intro i _ _
    match i with
    | ⟨0, _⟩ => exact h2
    | ⟨1, _⟩ => exact h3

/-- C5: for every store, type tag, `fieldIndex` and values, `removeFilteredPolicy` deletes
every record whose type equals the tag and whose field `fieldIndex + i` equals `values[i]`
at every position whose absolute index lies in `0..5`, whatever its other fields hold, and
keeps every other record unchanged and in place.  With `fieldIndex = 0` and values
`["alice", "data1"]` the records removed are exactly those of the type with
`v0 = "alice"` and `v1 = "data1"`, regardless of `v2..v5`. -/
theorem removeFilteredPolicy_deletes_matching (s : Store) (ptype : String) (fieldIndex : Int)
    (values : List String) :
    (removeFilteredPolicy s ptype fieldIndex values).docs =
      s.docs.filter (fun d => decide (¬ FilterMatches ptype fieldIndex values d)) ∧
    (removeFilteredPolicy s ptype 0 ["alice", "data1"]).docs =
      s.docs.filter (fun d =>
        decide (¬ (d.ptype = some ptype ∧ d.v0 = some "alice" ∧ d.v1 = some "data1"))) := by
  have general : ∀ (fi : Int) (vs : List String),
      (removeFilteredPolicy s ptype fi vs).docs =
        s.docs.filter (fun d => decide (¬ FilterMatches ptype fi vs d)) := by
    intro fi vs
    unfold removeFilteredPolicy
    rw [deleteMany_docs]
    apply List.filter_congr
    intro d _
    by_cases h : FilterMatches ptype fi vs d
    · simp [h, (matchesQuery_removeFilteredPolicyLine_iff ptype fi vs d).2 h]
    · have : matchesQuery (removeFilteredPolicyLine ptype fi vs) d = false := by
        cases hm : matchesQuery (removeFilteredPolicyLine ptype fi vs) d with
        | false => rfl
        | true => exact absurd ((matchesQuery_removeFilteredPolicyLine_iff ptype fi vs d).1 hm) h
      simp [h, this]
  refine ⟨general fieldIndex values, ?_⟩
  rw [general 0 ["alice", "data1"]]
  apply List.filter_congr
  intro d _
  simp only [filterMatches_alice_data1]


/-! ### `removePolicies` -/

theorem deleteOne_docs (s : Store) (q : CasbinRule) :
    (s.deleteOne q).docs = s.docs.eraseP (matchesQuery q) := by
  rcases s with ⟨_ | ds⟩ <;> rfl

theorem removePolicies_pair_docs (s : Store) (ptype : String) (a b : List String) :
    (removePolicies s ptype [a, b]).docs =
      (s.docs.eraseP (matchesQuery (deletePolicyLine ptype a))).eraseP
        (matchesQuery (deletePolicyLine ptype b)) := by
  simp only [removePolicies, List.foldl_cons, List.foldl_nil, List.nil_append,
    List.singleton_append, deleteOne_docs]

/-- C8: independent outcomes of bulk removal.  For every store, type tag and pair of rules
such that no record matches the delete pattern of the first rule and at least one record
matches the delete pattern of the second, `removePolicies` with the two rules, in either
order (the two orders in which the two deletes can take effect), completes and leaves the
collection with exactly one record fewer: one record matching the present rule is removed
and every other record stays, unchanged and in place. -/
theorem removePolicies_absent_present (s : Store) (ptype : String) (absent present : List String)
    (habs : ∀ d ∈ s.docs, matchesQuery (deletePolicyLine ptype absent) d = false)
    (hpres : ∃ d ∈ s.docs, matchesQuery (deletePolicyLine ptype present) d = true) :
    ∃ l₁ d l₂, s.docs = l₁ ++ d :: l₂ ∧
      matchesQuery (deletePolicyLine ptype present) d = true ∧
      (removePolicies s ptype [absent, present]).docs = l₁ ++ l₂ ∧
      (removePolicies s ptype [present, absent]).docs = l₁ ++ l₂ ∧
      (removePolicies s ptype [absent, present]).docs.length + 1 = s.docs.length ∧
      (removePolicies s ptype [present, absent]).docs.length + 1 = s.docs.length := by
  obtain ⟨d₀, hd₀, hm₀⟩ := hpres
  obtain ⟨d, l₁, l₂, _, hm, hsplit, herase⟩ := List.exists_of_eraseP hd₀ hm₀
  have hno : ∀ l : List CasbinRule, (∀ x ∈ l, x ∈ s.docs) →
      l.eraseP (matchesQuery (deletePolicyLine ptype absent)) = l := by
    intro l hl
    apply List.eraseP_of_forall_not
    intro x hx
    rw [habs x (hl x hx)]
    simp
  have h1 : (removePolicies s ptype [absent, present]).docs = l₁ ++ l₂ := by
    rw [removePolicies_pair_docs, hno s.docs (fun _ h => h), herase]
  have h2 : (removePolicies s ptype [present, absent]).docs = l₁ ++ l₂ := by
    rw [removePolicies_pair_docs, herase]
    apply hno
    intro x hx
    rw [hsplit]
    simp only [List.mem_append, List.mem_cons] at hx ⊢
    tauto
  refine ⟨l₁, d, l₂, hsplit, hm, h1, h2, ?_, ?_⟩
  · rw [h1, hsplit]; simp; omega
  · rw [h2, hsplit]; simp; omega

/-- Witness for C8: the store holds the rule `alice, data1, read`; `bob, data2, write` is
absent. -/
theorem removePolicies_absent_present_witness :
    ∃ l₁ d l₂,
      (Store.mk (some [savePolicyLine "t" "p" ["alice", "data1", "read"]])).docs = l₁ ++ d :: l₂ ∧
      matchesQuery (deletePolicyLine "p" ["alice", "data1", "read"]) d = true ∧
      (removePolicies ⟨some [savePolicyLine "t" "p" ["alice", "data1", "read"]]⟩ "p"
        [["bob", "data2", "write"], ["alice", "data1", "read"]]).docs = l₁ ++ l₂ ∧
      (removePolicies ⟨some [savePolicyLine "t" "p" ["alice", "data1", "read"]]⟩ "p"
        [["alice", "data1", "read"], ["bob", "data2", "write"]]).docs = l₁ ++ l₂ ∧
      (removePolicies ⟨some [savePolicyLine "t" "p" ["alice", "data1", "read"]]⟩ "p"
        [["bob", "data2", "write"], ["alice", "data1", "read"]]).docs.length + 1 =
        (Store.mk (some [savePolicyLine "t" "p" ["alice", "data1", "read"]])).docs.length ∧
      (removePolicies ⟨some [savePolicyLine "t" "p" ["alice", "data1", "read"]]⟩ "p"
        [["alice", "data1", "read"], ["bob", "data2", "write"]]).docs.length + 1 =
        (Store.mk (some [savePolicyLine "t" "p" ["alice", "data1", "read"]])).docs.length :=
  removePolicies_absent_present ⟨some [savePolicyLine "t" "p" ["alice", "data1", "read"]]⟩ "p"
    ["bob", "data2", "write"] ["alice", "data1", "read"] (by decide) (by decide)

/-! ### Loading -/

/-- C7: for every store, model and supplied filter, an adapter built with filtering
disabled (`isFiltered() = false`) ignores the filter: `loadFilteredPolicy(model, filter)`
applies every record of the collection, one `loadPolicyLine` per record in store order,
which is the effect of `loadPolicy(model)`.  With filtering enabled it applies exactly the
records that the filter selects. -/
theorem loadFilteredPolicy_filter_flag (s : Store) (model : Model) (filter : Filter) :
    isFiltered false = false ∧
    loadFilteredPolicy false s model (some filter) = loadPolicy false s model ∧
    loadFilteredPolicy false s model (some filter) =
      s.docs.foldl (fun m line => loadPolicyLine line m) model ∧
    loadPolicy true s model = s.docs.foldl (fun m line => loadPolicyLine line m) model ∧
    loadFilteredPolicy true s model (some filter) =
      (s.docs.filter filter).foldl (fun m line => loadPolicyLine line m) model := by
  exact ⟨rfl, rfl, rfl, rfl, rfl⟩


/-! ### The rule line of `loadPolicyLine` -/

theorem intercalate_go_append (acc x sep : String) (l : List String) :
    String.intercalate.go (acc ++ x) sep l = acc ++ String.intercalate.go x sep l := by
  induction l generalizing x with
  | nil => rfl
  | cons a rest ih =>
    simp only [String.intercalate.go]
    rw [String.append_assoc, String.append_assoc, ih, ← String.append_assoc]

theorem intercalate_cons_cons (sep a b : String) (l : List String) :
    sep.intercalate (a :: b :: l) = a ++ sep ++ sep.intercalate (b :: l) := by
  simp only [String.intercalate, String.intercalate.go]
  rw [intercalate_go_append]

theorem jsJoin_map_some (sep : String) (l : List String) :
    jsJoin sep (l.map some) = sep.intercalate l := by
  induction l with
  | nil => rfl
  | cons a rest ih =>
    cases rest with
    | nil => rfl
    | cons b rest =>
      rw [intercalate_cons_cons, ← ih]
      rfl

theorem filter_truthy_eq (xs : List (Option String)) :
    xs.filter truthy = (xs.filterMap (fun o => o.filter (fun x => x != ""))).map some := by
  induction xs with
  | nil => rfl
  | cons o rest ih =>
    cases o with
    | none => simpa [List.filter_cons, truthy, List.filterMap_cons] using ih
    | some x =>
      by_cases hx : x = ""
      · simpa [List.filter_cons, truthy, List.filterMap_cons, Option.filter, hx] using ih
      · simp [List.filter_cons, truthy, List.filterMap_cons, Option.filter, hx, ih]

theorem keptFields_eq (line : CasbinRule) :
    keptFields line =
      [line.v0, line.v1, line.v2, line.v3, line.v4, line.v5].filterMap
        (fun o => o.filter (fun x => x != "")) := by
  have h : List.range 6 = [0, 1, 2, 3, 4, 5] := by decide
  unfold keptFields
  rw [h]
  rfl

/-- C9 (counterexample): a record whose field 0 is set to the empty string.  The field is
set, yet it is left out of the rule line, which therefore differs from the line made of
the set fields. -/
theorem loadPolicyLineText_drops_empty_field :
    ({ ptype := some "p", v0 := some "", v1 := some "x" } : CasbinRule).v0 = some "" ∧
    loadPolicyLineText { ptype := some "p", v0 := some "", v1 := some "x" } = "p, x" ∧
    claimedLineText { ptype := some "p", v0 := some "", v1 := some "x" } = "p, , x" ∧
    loadPolicyLineText { ptype := some "p", v0 := some "", v1 := some "x" } ≠
      claimedLineText { ptype := some "p", v0 := some "", v1 := some "x" } := by
  decide

/-- C9 (amended): for every record, the rule line that `loadPolicyLine` hands to the
parser of the engine is the type of the record (the text `undefined` when the type is
unset), then `", "`, then the fields among `v0..v5` that are set and not the empty string,
in positional order, joined by `", "`; a field is left out of the line exactly when it is
unset or is the empty string. -/
theorem loadPolicyLineText_eq (line : CasbinRule) :
    loadPolicyLineText line =
      jsToString line.ptype ++ ", " ++ ", ".intercalate (keptFields line) ∧
    keptFields line =
      (List.range 6).filterMap (fun k => (line.field k).filter (fun x => x != "")) ∧
    ∀ x, x ∈ keptFields line ↔ ∃ k, k < 6 ∧ line.field k = some x ∧ x ≠ "" := by
  refine ⟨?_, rfl, ?_⟩
  · unfold loadPolicyLineText
    rw [filter_truthy_eq, jsJoin_map_some, keptFields_eq]
  · intro x
    unfold keptFields
    simp only [List.mem_filterMap, List.mem_range]
    constructor
    · rintro ⟨k, hk, h⟩
      refine ⟨k, hk, ?_⟩
      cases hf : line.field k with
      | none => rw [hf] at h; simp [Option.filter] at h
      | some y =>
        rw [hf] at h
        by_cases hy : y = ""
        · simp [Option.filter, hy] at h
        · simp [Option.filter, hy] at h
          subst h
          exact ⟨rfl, hy⟩
    · rintro ⟨k, hk, hf, hx⟩
      exact ⟨k, hk, by simp [hf, Option.filter, hx]⟩


/-! ### Round trip of one rule through the stored record and the rule line -/

theorem dropWhile_eq_self_of_head (p : Char → Bool) (l : List Char)
    (h : l.head?.all (fun c => !p c) = true) : l.dropWhile p = l := by
  cases l with
  | nil => rfl
  | cons c rest =>
    simp only [List.head?_cons, Option.all_some, Bool.not_eq_true'] at h
    simp [List.dropWhile_cons, h]

theorem trimChars_of_clean (l : List Char)
    (h1 : l.head?.all (fun c => !isJsWhiteSpace c) = true)
    (h2 : l.getLast?.all (fun c => !isJsWhiteSpace c) = true) : trimChars l = l := by
  unfold trimChars
  rw [dropWhile_eq_self_of_head _ l h1, dropWhile_eq_self_of_head _ l.reverse
    (by rw [List.head?_reverse]; exact h2), List.reverse_reverse]

theorem trimChars_space_cons (l : List Char)
    (h1 : l.head?.all (fun c => !isJsWhiteSpace c) = true)
    (h2 : l.getLast?.all (fun c => !isJsWhiteSpace c) = true) : trimChars (' ' :: l) = l := by
  have h : (' ' :: l).dropWhile isJsWhiteSpace = l.dropWhile isJsWhiteSpace := by
    rw [List.dropWhile_cons]
    have : isJsWhiteSpace ' ' = true := by decide
    simp [this]
  have := trimChars_of_clean l h1 h2
  unfold trimChars at this ⊢
  rw [h, this]

theorem splitCommaChars_of_not_mem (x : List Char) (h : ',' ∉ x) : splitCommaChars x = [x] := by
  induction x with
  | nil => rfl
  | cons c rest ih =>
    have hc : c ≠ ',' := fun e => h (by simp [e])
    have hr : ',' ∉ rest := fun e => h (by simp [e])
    unfold splitCommaChars
    rw [if_neg hc, ih hr]

theorem splitCommaChars_append_comma (x rest : List Char) (h : ',' ∉ x) :
    splitCommaChars (x ++ ',' :: rest) = x :: splitCommaChars rest := by
  induction x with
  | nil => simp [splitCommaChars]
  | cons c xs ih =>
    have hc : c ≠ ',' := fun e => h (by simp [e])
    have hr : ',' ∉ xs := fun e => h (by simp [e])
    rw [List.cons_append, splitCommaChars, if_neg hc, ih hr]


theorem intercalate_data (l : List String) :
    (", ".intercalate l).data = joinCommaSpace (l.map String.data) := by
  induction l with
  | nil => rfl
  | cons a rest ih =>
    cases rest with
    | nil => rfl
    | cons b rest =>
      rw [intercalate_cons_cons, String.data_append, String.data_append, ih]
      simp [joinCommaSpace]

theorem ruleLine_data (ptype : String) (rule : List String) (hr : rule ≠ []) :
    (ptype ++ ", " ++ ", ".intercalate rule).data =
      joinCommaSpace (ptype.data :: rule.map String.data) := by
  cases rule with
  | nil => exact absurd rfl hr
  | cons a rest =>
    rw [String.data_append, String.data_append, intercalate_data]
    simp [joinCommaSpace]

theorem splitCommaChars_joinCommaSpace (x : List Char) (xs : List (List Char))
    (hx : ',' ∉ x) (hxs : ∀ y ∈ xs, ',' ∉ y) :
    splitCommaChars (joinCommaSpace (x :: xs)) = x :: xs.map (fun y => ' ' :: y) := by
  induction xs generalizing x with
  | nil => simpa [joinCommaSpace] using splitCommaChars_of_not_mem x hx
  | cons y rest ih =>
    have hy : ',' ∉ y := hxs y (by simp)
    have hrest : ∀ z ∈ rest, ',' ∉ z := fun z hz => hxs z (by simp [hz])
    have hsp : (' ' : Char) ≠ ',' := by decide
    rw [joinCommaSpace, splitCommaChars_append_comma x _ hx, splitCommaChars, if_neg hsp,
      ih y hy hrest]
    rfl

theorem parseRuleLine_ruleLine (ptype : String) (rule : List String) (hp : CleanToken ptype)
    (hr : rule ≠ []) (hc : ∀ x ∈ rule, CleanToken x) :
    parseRuleLine (ptype ++ ", " ++ ", ".intercalate rule) = ptype :: rule := by
  unfold parseRuleLine jsSplitComma
  rw [ruleLine_data ptype rule hr, splitCommaChars_joinCommaSpace ptype.data _ hp.1
    (by
      intro y hy
      simp only [List.mem_map] at hy
      obtain ⟨x, hx, rfl⟩ := hy
      exact (hc x hx).1)]
  simp only [List.map_cons, List.map_map]
  congr 1
  · show String.mk (trimChars ptype.data) = ptype
    rw [trimChars_of_clean _ hp.2.1 hp.2.2]
  · induction rule with
    | nil => rfl
    | cons a rest ih =>
      simp only [List.map_cons]
      congr 1
      · show String.mk (trimChars (' ' :: a.data)) = a
        rw [trimChars_space_cons _ (hc a (by simp)).2.1 (hc a (by simp)).2.2]
      · cases rest with
        | nil => rfl
        | cons b rest' =>
          exact ih (by simp) (fun x hx => hc x (by simp [hx]))

theorem keptFields_savePolicyLine (now ptype : String) (rule : List String)
    (hlen : rule.length ≤ 6) (hne : ∀ x ∈ rule, x ≠ "") :
    keptFields (savePolicyLine now ptype rule) = rule := by
  rw [keptFields_eq]
  rcases rule with _ | ⟨a, _ | ⟨b, _ | ⟨c, _ | ⟨d, _ | ⟨e, _ | ⟨f, _ | ⟨g, rest⟩⟩⟩⟩⟩⟩⟩
  · rfl
  · have := hne a (by simp)
    simp [savePolicyLine, populateCasbinRule, createCasbinRule, List.enum, List.enumFrom,
      CasbinRule.setField, Option.filter, this]
  · have h1 := hne a (by simp)
    have h2 := hne b (by simp)
    simp [savePolicyLine, populateCasbinRule, createCasbinRule, List.enum, List.enumFrom,
      CasbinRule.setField, Option.filter, h1, h2]
  · have h1 := hne a (by simp)
    have h2 := hne b (by simp)
    have h3 := hne c (by simp)
    simp [savePolicyLine, populateCasbinRule, createCasbinRule, List.enum, List.enumFrom,
      CasbinRule.setField, Option.filter, h1, h2, h3]
  · have h1 := hne a (by simp)
    have h2 := hne b (by simp)
    have h3 := hne c (by simp)
    have h4 := hne d (by simp)
    simp [savePolicyLine, populateCasbinRule, createCasbinRule, List.enum, List.enumFrom,
      CasbinRule.setField, Option.filter, h1, h2, h3, h4]
  · have h1 := hne a (by simp)
    have h2 := hne b (by simp)
    have h3 := hne c (by simp)
    have h4 := hne d (by simp)
    have h5 := hne e (by simp)
    simp [savePolicyLine, populateCasbinRule, createCasbinRule, List.enum, List.enumFrom,
      CasbinRule.setField, Option.filter, h1, h2, h3, h4, h5]
  · have h1 := hne a (by simp)
    have h2 := hne b (by simp)
    have h3 := hne c (by simp)
    have h4 := hne d (by simp)
    have h5 := hne e (by simp)
    have h6 := hne f (by simp)
    simp [savePolicyLine, populateCasbinRule, createCasbinRule, List.enum, List.enumFrom,
      CasbinRule.setField, Option.filter, h1, h2, h3, h4, h5, h6]
  · simp at hlen

theorem loadPolicyLineText_savePolicyLine (now ptype : String) (rule : List String)
    (hlen : rule.length ≤ 6) (hne : ∀ x ∈ rule, x ≠ "") :
    loadPolicyLineText (savePolicyLine now ptype rule) =
      ptype ++ ", " ++ ", ".intercalate rule := by
  unfold loadPolicyLineText
  rw [filter_truthy_eq, jsJoin_map_some, ← keptFields_eq,
    keptFields_savePolicyLine now ptype rule hlen hne]
  have : (savePolicyLine now ptype rule).ptype = some ptype :=
    (populateCasbinRule_ptype _ ptype rule).1
  rw [this]
  rfl

theorem roundTrip_rule (now ptype : String) (rule : List String) (hp : CleanToken ptype)
    (hr : StorableRule rule) :
    parseRuleLine (loadPolicyLineText (savePolicyLine now ptype rule)) = ptype :: rule := by
  obtain ⟨h1, h6, hx⟩ := hr
  rw [loadPolicyLineText_savePolicyLine now ptype rule h6 (fun x h => (hx x h).1)]
  apply parseRuleLine_ruleLine ptype rule hp
  · intro e
    rw [e] at h1
    simp at h1
  · exact fun x h => (hx x h).2


/-! ### Round trip of a model through the store -/

theorem dropWhile_append_singleton (p : Char → Bool) (a : List Char) (c : Char)
    (hc : p c = false) : (a ++ [c]).dropWhile p = a.dropWhile p ++ [c] := by
  induction a with
  | nil => simp [List.dropWhile_cons, hc]
  | cons x rest ih =>
    by_cases hx : p x = true
    · simp [List.dropWhile_cons, hx, ih]
    · simp [List.dropWhile_cons, hx]

theorem head?_trimChars_cons (c : Char) (rest : List Char) (hc : isJsWhiteSpace c = false) :
    (trimChars (c :: rest)).head? = some c := by
  unfold trimChars
  have h1 : (c :: rest).dropWhile isJsWhiteSpace = c :: rest := by
    simp [List.dropWhile_cons, hc]
  rw [h1, List.reverse_cons, dropWhile_append_singleton _ _ _ hc]
  simp

theorem pushPolicy_lookup (k key : String) (r : List String) (ast : AstMap) :
    (pushPolicy k r ast).lookup key =
      if k = key then (ast.lookup key).map (fun pol => pol ++ [r]) else ast.lookup key := by
  induction ast with
  | nil => simp [pushPolicy]
  | cons e rest ih =>
    obtain ⟨k', pol⟩ := e
    unfold pushPolicy
    by_cases h1 : k' = k
    · subst h1
      by_cases h2 : k' = key
      · subst h2
        simp [List.lookup_cons]
      · have h3 : (key == k') = false := by simpa using fun e => h2 e.symm
        simp [List.lookup_cons, h2, h3]
    · rw [if_neg h1]
      by_cases h2 : key = k'
      · subst h2
        have h3 : ¬ k = key := fun e => h1 e.symm
        simp [List.lookup_cons, h3]
      · have h3 : (key == k') = false := by simpa using h2
        simp only [List.lookup_cons, h3, ih]

theorem pushRule_lookupPolicy (s k sec key : String) (r : List String) (m : Model) :
    lookupPolicy (pushRule s k r m) sec key =
      if s = sec ∧ k = key then (lookupPolicy m sec key).map (fun pol => pol ++ [r])
      else lookupPolicy m sec key := by
  unfold lookupPolicy
  induction m with
  | nil => simp [pushRule]
  | cons e rest ih =>
    obtain ⟨s', ast⟩ := e
    unfold pushRule
    by_cases h1 : s' = s
    · subst h1
      by_cases h2 : s' = sec
      · subst h2
        simp only [if_true, List.lookup_cons, beq_self_eq_true, Option.some_bind, true_and,
          pushPolicy_lookup]
      · have h3 : (sec == s') = false := by simpa using fun e => h2 e.symm
        simp [List.lookup_cons, h2, h3]
    · rw [if_neg h1]
      by_cases h2 : sec = s'
      · subst h2
        have h3 : ¬ s = sec := fun e => h1 e.symm
        simp [List.lookup_cons, h3]
      · have h3 : (sec == s') = false := by simpa using h2
        simp only [List.lookup_cons, h3, ih]

theorem foldl_pushRule_lookupPolicy (secOf : String → String)
    (rules : List (String × List String)) (m : Model) (sec key : String) :
    lookupPolicy (rules.foldl (fun m r => pushRule (secOf r.1) r.1 r.2 m) m) sec key =
      (lookupPolicy m sec key).map (fun pol => pol ++
        (rules.filter (fun r => decide (secOf r.1 = sec ∧ r.1 = key))).map Prod.snd) := by
  induction rules generalizing m with
  | nil => simp
  | cons r rest ih =>
    rw [List.foldl_cons, ih, pushRule_lookupPolicy]
    by_cases h : secOf r.1 = sec ∧ r.1 = key
    · rw [if_pos h]
      have hk : secOf key = sec := h.2 ▸ h.1
      simp [List.filter_cons, h, hk, Option.map_map, Function.comp_def]
    · rw [if_neg h]
      simp [List.filter_cons, h]

theorem lookup_map_snd {β γ : Type} (f : β → γ) (l : List (String × β)) (k : String) :
    (l.map (fun e => (e.1, f e.2))).lookup k = (l.lookup k).map f := by
  induction l with
  | nil => rfl
  | cons e rest ih =>
    obtain ⟨k', b⟩ := e
    by_cases h : k = k'
    · subst h
      simp [List.lookup_cons]
    · have h3 : (k == k') = false := by simpa using h
      simp only [List.map_cons, List.lookup_cons, h3, ih]

theorem freshModel_lookupPolicy (model : Model) (sec key : String) :
    lookupPolicy (freshModel model) sec key =
      (lookupPolicy model sec key).map (fun _ => ([] : Policy)) := by
  unfold lookupPolicy freshModel
  rw [lookup_map_snd (fun ast : AstMap => ast.map (fun entry => (entry.1, ([] : Policy))))]
  cases model.lookup sec with
  | none => rfl
  | some ast =>
    simp only [Option.map_some', Option.some_bind]
    exact lookup_map_snd (fun _ : Policy => ([] : Policy)) ast key


theorem head_of_sectionLetter (ptype sec : String) (hsec : sec = "p" ∨ sec = "g")
    (hk : String.mk (ptype.data.take 1) = sec) :
    ∃ c rest, ptype.data = c :: rest ∧ isJsWhiteSpace c = false ∧ c ≠ '#' := by
  cases hd : ptype.data with
  | nil =>
    rw [hd] at hk
    rcases hsec with h | h <;> rw [h] at hk <;> exact absurd hk (by decide)
  | cons c rest =>
    rw [hd] at hk
    have h1 : [c] = sec.data := congrArg String.data hk
    refine ⟨c, rest, rfl, ?_⟩
    rcases hsec with h | h
    · rw [h] at h1
      have : c = 'p' := by
        have := List.head_eq_of_cons_eq h1
        exact this
      subst this
      exact ⟨by decide, by decide⟩
    · rw [h] at h1
      have : c = 'g' := by
        have := List.head_eq_of_cons_eq h1
        exact this
      subst this
      exact ⟨by decide, by decide⟩

theorem loadPolicyLine_savePolicyLine (now ptype sec : String) (rule : List String) (m : Model)
    (hsec : sec = "p" ∨ sec = "g") (hk : String.mk (ptype.data.take 1) = sec)
    (hp : CleanToken ptype) (hr : StorableRule rule) :
    loadPolicyLine (savePolicyLine now ptype rule) m = pushRule sec ptype rule m := by
  obtain ⟨c, rest, hd, hws, hhash⟩ := head_of_sectionLetter ptype sec hsec hk
  have htext := loadPolicyLineText_savePolicyLine now ptype rule hr.2.1 (fun x h => (hr.2.2 x h).1)
  have hdata : (loadPolicyLineText (savePolicyLine now ptype rule)).data =
      c :: (rest ++ (", " ++ ", ".intercalate rule).data) := by
    rw [htext, String.append_assoc, String.data_append, hd]
    rfl
  have hcond : ¬ (loadPolicyLineText (savePolicyLine now ptype rule) = "" ∨
      (jsTrim (loadPolicyLineText (savePolicyLine now ptype rule))).data.head? = some '#') := by
    rintro (h | h)
    · have := congrArg String.data h
      rw [hdata] at this
      exact absurd this (by simp)
    · unfold jsTrim at h
      simp only [hdata] at h
      rw [head?_trimChars_cons c _ hws] at h
      exact hhash (Option.some.inj h)
  unfold loadPolicyLine helperLoadPolicyLine
  rw [if_neg hcond, roundTrip_rule now ptype rule hp hr]
  simp only [hk]

theorem foldl_loadPolicyLine_stampedLines (clock : Nat → String) (n : Nat) (sec : String)
    (hsec : sec = "p" ∨ sec = "g") (rules : List (String × List String)) (m : Model)
    (h : ∀ r ∈ rules, String.mk (r.1.data.take 1) = sec ∧ CleanToken r.1 ∧ StorableRule r.2) :
    (stampedLines clock n rules).foldl (fun m line => loadPolicyLine line m) m =
      rules.foldl (fun m r => pushRule (String.mk (r.1.data.take 1)) r.1 r.2 m) m := by
  induction rules generalizing n m with
  | nil => rfl
  | cons r rest ih =>
    obtain ⟨h1, h2, h3⟩ := h r (by simp)
    simp only [stampedLines, List.foldl_cons]
    rw [loadPolicyLine_savePolicyLine _ r.1 sec r.2 m hsec h1 h2 h3, h1,
      ih (n + 1) _ (fun x hx => h x (by simp [hx]))]

theorem sectionRules_storable (sec : String) (astMap : AstMap) (h : StorableSection sec astMap) :
    ∀ r ∈ sectionRules astMap,
      String.mk (r.1.data.take 1) = sec ∧ CleanToken r.1 ∧ StorableRule r.2 := by
  intro r hr
  unfold sectionRules at hr
  simp only [List.mem_flatMap, List.mem_map] at hr
  obtain ⟨entry, he, rule, hrule, rfl⟩ := hr
  obtain ⟨h1, h2, h3⟩ := h.2 entry he
  exact ⟨h2, h1, h3 rule hrule⟩

theorem sectionRules_filter_key (astMap : AstMap) (key : String) (hu : UniqueKeys astMap) :
    ((sectionRules astMap).filter (fun r => decide (r.1 = key))).map Prod.snd =
      (astMap.lookup key).getD [] := by
  induction astMap with
  | nil => rfl
  | cons e rest ih =>
    obtain ⟨k, pol⟩ := e
    have hu' : UniqueKeys rest := by
      unfold UniqueKeys at hu ⊢
      exact (List.nodup_cons.1 hu).2
    have hk : k ∉ rest.map Prod.fst := by
      unfold UniqueKeys at hu
      exact (List.nodup_cons.1 hu).1
    unfold sectionRules at ih ⊢
    rw [List.flatMap_cons, List.filter_append, List.map_append, ih hu']
    by_cases h : key = k
    · subst h
      have hnone : rest.lookup key = none := by
        rw [List.lookup_eq_none_iff]
        intro e he
        rw [bne_iff_ne]
        intro heq
        exact hk (by rw [List.mem_map]; exact ⟨e, he, heq.symm⟩)
      simp [List.lookup_cons, hnone, List.filter_map, Function.comp_def]
    · have h3 : (key == k) = false := by simpa using h
      have h4 : ¬ k = key := fun e => h e.symm
      simp [List.lookup_cons, h3, List.filter_map, Function.comp_def, h4]


theorem loadPolicy_eq_foldl (useFilter : Bool) (s : Store) (m : Model) :
    loadPolicy useFilter s m = s.docs.foldl (fun m line => loadPolicyLine line m) m := by
  cases useFilter <;> rfl

theorem loadPolicy_savePolicy (clearFails : Bool) (clock : Nat → String) (s : Store)
    (useFilter : Bool) (model m : Model) (p g : AstMap)
    (hclear : clearFails = false ∨ s.docs = [])
    (hp : model.lookup "p" = some p) (hg : model.lookup "g" = some g)
    (hsp : StorableSection "p" p) (hsg : StorableSection "g" g) :
    loadPolicy useFilter (savePolicy clearFails clock s model).2 m =
      (sectionRules p ++ sectionRules g).foldl
        (fun m r => pushRule (String.mk (r.1.data.take 1)) r.1 r.2 m) m := by
  rw [loadPolicy_eq_foldl, (savePolicy_eq clearFails clock s model p g hp hg).2,
    clearCollection_docs_nil clearFails s hclear, List.nil_append, stampedLines_append,
    List.foldl_append, List.foldl_append,
    foldl_loadPolicyLine_stampedLines clock 0 "p" (Or.inl rfl) _ _
      (sectionRules_storable "p" p hsp),
    foldl_loadPolicyLine_stampedLines clock _ "g" (Or.inr rfl) _ _
      (sectionRules_storable "g" g hsg)]

theorem filter_section_key (sec other key : String) (hne : other ≠ sec) (a b : AstMap)
    (ha : StorableSection sec a) (hb : StorableSection other b) :
    ((sectionRules a).filter
        (fun r => decide (String.mk (r.1.data.take 1) = sec ∧ r.1 = key))).map Prod.snd =
      (a.lookup key).getD [] ∧
    (sectionRules b).filter
        (fun r => decide (String.mk (r.1.data.take 1) = sec ∧ r.1 = key)) = [] := by
  constructor
  · rw [← sectionRules_filter_key a key ha.1]
    congr 1
    apply List.filter_congr
    intro r hr
    have := (sectionRules_storable sec a ha r hr).1
    simp [this]
  · rw [List.filter_eq_nil_iff]
    intro r hr
    have := (sectionRules_storable other b hb r hr).1
    simp [this, hne]

theorem lookupPolicy_restore (model : Model) (sec key : String) (a : AstMap)
    (rules : List (List String)) (hm : model.lookup sec = some a)
    (hr : rules = (a.lookup key).getD []) :
    (lookupPolicy (freshModel model) sec key).map (fun pol => pol ++ rules) =
      lookupPolicy model sec key := by
  rw [freshModel_lookupPolicy]
  unfold lookupPolicy
  rw [hm, hr]
  simp only [Option.some_bind]
  cases a.lookup key with
  | none => rfl
  | some pol => simp

/-- C3 (counterexample): inputs on which the round trip fails.  At the level of one rule:
a rule of seven fields loses its last field, a rule with an empty field loses that field,
the empty rule comes back as one empty field, a field with a comma comes back split, a
field with white space at an end comes back trimmed, and a type tag with a comma or with
white space at an end does not come back either.  At the level of a model: the
seven-field rule is loaded back with six fields; a rule type that does not begin with the
letter of its section is not loaded back at all; and when the drop of the old collection
fails (the failure is swallowed) a stale record is loaded back in front of the rules of
the model. -/
theorem roundTrip_fails :
    parseRuleLine (loadPolicyLineText
        (savePolicyLine "t" "p" ["a", "b", "c", "d", "e", "f", "g"])) =
      ["p", "a", "b", "c", "d", "e", "f"] ∧
    parseRuleLine (loadPolicyLineText
        (savePolicyLine "t" "p" ["a", "b", "c", "d", "e", "f", "g"])) ≠
      "p" :: ["a", "b", "c", "d", "e", "f", "g"] ∧
    parseRuleLine (loadPolicyLineText (savePolicyLine "t" "p" ["alice", "", "read"])) ≠
      "p" :: ["alice", "", "read"] ∧
    parseRuleLine (loadPolicyLineText (savePolicyLine "t" "p" [])) ≠ "p" :: [] ∧
    parseRuleLine (loadPolicyLineText (savePolicyLine "t" "p" ["a,b"])) ≠ "p" :: ["a,b"] ∧
    parseRuleLine (loadPolicyLineText (savePolicyLine "t" "p" ["alice "])) ≠
      "p" :: ["alice "] ∧
    parseRuleLine (loadPolicyLineText (savePolicyLine "t" "p" [" alice"])) ≠
      "p" :: [" alice"] ∧
    parseRuleLine (loadPolicyLineText (savePolicyLine "t" "p,x" ["alice"])) ≠
      "p,x" :: ["alice"] ∧
    parseRuleLine (loadPolicyLineText (savePolicyLine "t" "p " ["alice"])) ≠
      "p " :: ["alice"] ∧
    parseRuleLine (loadPolicyLineText (savePolicyLine "t" " p" ["alice"])) ≠
      " p" :: ["alice"] ∧
    lookupPolicy
        (loadPolicy false
          (savePolicy false (fun _ => "t") ⟨none⟩
            [("p", [("p", [["a", "b", "c", "d", "e", "f", "g"]])]), ("g", [])]).2
          (freshModel [("p", [("p", [["a", "b", "c", "d", "e", "f", "g"]])]), ("g", [])]))
        "p" "p" = some [["a", "b", "c", "d", "e", "f"]] ∧
    lookupPolicy [("p", [("p", [["a", "b", "c", "d", "e", "f", "g"]])]), ("g", [])] "p" "p" =
      some [["a", "b", "c", "d", "e", "f", "g"]] ∧
    lookupPolicy
        (loadPolicy false
          (savePolicy false (fun _ => "t") ⟨none⟩
            [("p", [("x", [["alice", "data1", "read"]])]), ("g", [])]).2
          (freshModel [("p", [("x", [["alice", "data1", "read"]])]), ("g", [])]))
        "p" "x" = some [] ∧
    lookupPolicy [("p", [("x", [["alice", "data1", "read"]])]), ("g", [])] "p" "x" =
      some [["alice", "data1", "read"]] ∧
    lookupPolicy
        (loadPolicy false
          (savePolicy true (fun _ => "t") ⟨some [{ ptype := some "p", v0 := some "old" }]⟩
            [("p", [("p", [["alice", "data1", "read"]])]), ("g", [])]).2
          (freshModel [("p", [("p", [["alice", "data1", "read"]])]), ("g", [])]))
        "p" "p" = some [["old"], ["alice", "data1", "read"]] ∧
    lookupPolicy [("p", [("p", [["alice", "data1", "read"]])]), ("g", [])] "p" "p" =
      some [["alice", "data1", "read"]] := by
  decide

/-- C3 (amended): round trip.  For every model that has both sections, whose rule types
(distinct, as the keys of a `Map` are) are comma-free tokens without white space at their
ends that begin with the letter of their section, and whose rules all have between one and
six fields, each field non-empty, comma-free and without white space at its ends:
provided nothing is left of the old collection (the driver calls of `clearCollection`
succeed, or the collection held no record), `savePolicy` followed by `loadPolicy` into a
fresh model with the same rule-type keys reproduces, for every rule type of both sections,
the same rule tuples (here in the same order, hence the same set).  At the level of one
rule: for every such type tag and rule tuple, the line that `loadPolicyLine` reconstructs
from the record that `savePolicyLine` builds parses (split on `,` and trim) back to the
type tag followed by exactly the original fields. -/
theorem savePolicy_loadPolicy_roundTrip (clearFails : Bool) (clock : Nat → String)
    (s : Store) (useFilter : Bool) (model : Model) (p g : AstMap)
    (hclear : clearFails = false ∨ s.docs = [])
    (hp : model.lookup "p" = some p) (hg : model.lookup "g" = some g)
    (hsp : StorableSection "p" p) (hsg : StorableSection "g" g) :
    (∀ key, lookupPolicy
        (loadPolicy useFilter (savePolicy clearFails clock s model).2 (freshModel model))
        "p" key = lookupPolicy model "p" key) ∧
    (∀ key, lookupPolicy
        (loadPolicy useFilter (savePolicy clearFails clock s model).2 (freshModel model))
        "g" key = lookupPolicy model "g" key) ∧
    (∀ (now ptype : String) (rule : List String), CleanToken ptype → StorableRule rule →
      parseRuleLine (loadPolicyLineText (savePolicyLine now ptype rule)) = ptype :: rule) := by
  have hload := loadPolicy_savePolicy clearFails clock s useFilter model (freshModel model)
    p g hclear hp hg hsp hsg
  refine ⟨?_, ?_, fun now ptype rule h1 h2 => roundTrip_rule now ptype rule h1 h2⟩
  · intro key
    obtain ⟨h1, h2⟩ := filter_section_key "p" "g" key (by decide) p g hsp hsg
    rw [hload, foldl_pushRule_lookupPolicy (fun k => String.mk (k.data.take 1))]
    apply lookupPolicy_restore model "p" key p _ hp
    rw [List.filter_append, h2, List.append_nil, h1]
  · intro key
    obtain ⟨h1, h2⟩ := filter_section_key "g" "p" key (by decide) g p hsg hsp
    rw [hload, foldl_pushRule_lookupPolicy (fun k => String.mk (k.data.take 1))]
    apply lookupPolicy_restore model "g" key g _ hg
    rw [List.filter_append, h2, List.nil_append, h1]

/-- Witness for C3 (amended): two permission rules and one grouping rule, saved over a
stale record with a drop that succeeds, and loaded back. -/
theorem savePolicy_loadPolicy_roundTrip_witness :
    lookupPolicy
        (loadPolicy false
          (savePolicy false (fun _ => "t") ⟨some [{ ptype := some "p", v0 := some "old" }]⟩
            [("p", [("p", [["alice", "data1", "read"], ["bob", "data2", "write"]])]),
             ("g", [("g", [["alice", "admin"]])])]).2
          (freshModel
            [("p", [("p", [["alice", "data1", "read"], ["bob", "data2", "write"]])]),
             ("g", [("g", [["alice", "admin"]])])]))
        "p" "p" =
      lookupPolicy
        [("p", [("p", [["alice", "data1", "read"], ["bob", "data2", "write"]])]),
         ("g", [("g", [["alice", "admin"]])])] "p" "p" :=
  (savePolicy_loadPolicy_roundTrip false (fun _ => "t")
    ⟨some [{ ptype := some "p", v0 := some "old" }]⟩ false
    [("p", [("p", [["alice", "data1", "read"], ["bob", "data2", "write"]])]),
     ("g", [("g", [["alice", "admin"]])])]
    [("p", [["alice", "data1", "read"], ["bob", "data2", "write"]])]
    [("g", [["alice", "admin"]])] (Or.inl rfl) (by decide) (by decide) (by decide)
    (by decide)).1 "p"

/-! ### Timestamps of the two conversions -/

theorem setField_withoutTimestamps (line : CasbinRule) (i : Nat) (x : String) :
    (line.setField i x).withoutTimestamps = line.withoutTimestamps.setField i x := by
  unfold CasbinRule.setField
  split <;> rfl

theorem foldl_setField_withoutTimestamps (l : List (Nat × String)) (line : CasbinRule) :
    (l.foldl (fun l p => l.setField p.1 p.2) line).withoutTimestamps =
      l.foldl (fun l p => l.setField p.1 p.2) line.withoutTimestamps := by
  induction l generalizing line with
  | nil => rfl
  | cons p rest ih =>
    simp only [List.foldl_cons]
    rw [ih, setField_withoutTimestamps]

theorem savePolicyLine_withoutTimestamps (now ptype : String) (rule : List String) :
    (savePolicyLine now ptype rule).withoutTimestamps = deletePolicyLine ptype rule := by
  unfold savePolicyLine deletePolicyLine populateCasbinRule
  rw [foldl_setField_withoutTimestamps]
  rfl

/-- C11: for every type tag and rule tuple, the record built for `addPolicy`,
`addPolicies` and `savePolicy` (`savePolicyLine`) carries both `createdAt` and
`updatedAt`, set to the one clock reading taken at the conversion, and the record built
for `removePolicy` and `removePolicies` (`deletePolicyLine`) carries neither; apart from
the timestamps the two records are identical, same type and same positional fields.
`addPolicy` inserts the stamped record, `removePolicy` queries with the unstamped one, and
record number `i` of `addPolicies` is stamped with reading number `i`. -/
theorem conversions_timestamps (now ptype : String) (rule : List String) :
    (savePolicyLine now ptype rule).createdAt = some now ∧
    (savePolicyLine now ptype rule).updatedAt = some now ∧
    (deletePolicyLine ptype rule).createdAt = none ∧
    (deletePolicyLine ptype rule).updatedAt = none ∧
    (savePolicyLine now ptype rule).ptype = (deletePolicyLine ptype rule).ptype ∧
    (∀ k, (savePolicyLine now ptype rule).field k = (deletePolicyLine ptype rule).field k) ∧
    (savePolicyLine now ptype rule).withoutTimestamps = deletePolicyLine ptype rule ∧
    (∀ s : Store, (addPolicy now s ptype rule).docs = s.docs ++ [savePolicyLine now ptype rule]) ∧
    (∀ s : Store, removePolicy s ptype rule = s.deleteOne (deletePolicyLine ptype rule)) ∧
    (∀ (clock : Nat → String) (rules : List (List String)) (i : Nat),
      (addPoliciesLines clock ptype rules)[i]? =
        (rules[i]?).map (fun r => savePolicyLine (clock i) ptype r)) := by
  obtain ⟨_, hc, hu⟩ := populateCasbinRule_ptype (createCasbinRule true now) ptype rule
  obtain ⟨_, hc', hu'⟩ := populateCasbinRule_ptype (createCasbinRule false "") ptype rule
  have hw := savePolicyLine_withoutTimestamps now ptype rule
  refine ⟨hc, hu, hc', hu', ?_, ?_, hw, fun _ => rfl, fun _ => rfl, ?_⟩
  · rw [← hw]; rfl
  · intro k
    rw [← hw]
    unfold CasbinRule.field CasbinRule.withoutTimestamps
    split <;> rfl
  · intro clock rules i
    rw [addPoliciesLines_eq, getElem?_stampedLines, List.getElem?_map, Option.map_map,
      Nat.zero_add]
    rfl

/-! ### Opening the connection -/

theorem createDBIndex_ok (d : Driver) : ∃ log, createDBIndex d = .ok log := by
  unfold createDBIndex
  cases createIndexLoop d indexFields with
  | ok _ => exact ⟨_, rfl⟩
  | error e => exact ⟨_, rfl⟩

theorem openAdapter_of_connect_error (d : Driver) (msg : String)
    (h : d.connect = .error msg) : openAdapter d = .error msg := by
  unfold openAdapter
  simp only [h]

theorem openAdapter_of_connect_ok (d : Driver) (h : d.connect = .ok ()) :
    ∃ log, openAdapter d = .ok log := by
  obtain ⟨log, hlog⟩ := createDBIndex_ok d
  refine ⟨log, ?_⟩
  unfold openAdapter
  simp only [h, hlog]

/-- C12: index creation is best-effort.  Whatever the outcomes of the seven `createIndex`
calls and of obtaining the collection, `createDBIndex` completes without raising; so
`open()` fails if and only if the `connect` of the driver fails, and then raises an error
carrying the message of the driver.  An index-creation failure is only logged: with a
successful `connect`, `open()` completes, and `newAdapter` fails only on a missing URI, a
failing `new MongoClient`, or a failing `connect`. -/
theorem createDBIndex_best_effort (d : Driver) :
    (∃ log, createDBIndex d = .ok log) ∧
    ((∃ msg, openAdapter d = .error msg) ↔ (∃ msg, d.connect = .error msg)) ∧
    (∀ msg, d.connect = .error msg → openAdapter d = .error msg) ∧
    (d.connect = .ok () → ∃ log, openAdapter d = .ok log) ∧
    (∀ e, createIndexLoop d indexFields = .error e →
      createDBIndex d = .ok [LogEntry.error e]) ∧
    (∀ uri : String, (∃ msg, newAdapter uri d = .error msg) ↔
      (uri = "" ∨ (∃ msg, d.newClient = .error msg) ∨ (∃ msg, d.connect = .error msg))) := by
  have hopen : (∃ msg, openAdapter d = .error msg) ↔ (∃ msg, d.connect = .error msg) := by
    constructor
    · rintro ⟨msg, h⟩
      cases hc : d.connect with
      | error m => exact ⟨m, rfl⟩
      | ok u =>
        cases u
        obtain ⟨log, hlog⟩ := openAdapter_of_connect_ok d hc
        rw [hlog] at h
        cases h
    · rintro ⟨msg, h⟩
      exact ⟨msg, openAdapter_of_connect_error d msg h⟩
  refine ⟨createDBIndex_ok d, hopen, openAdapter_of_connect_error d,
    openAdapter_of_connect_ok d, ?_, ?_⟩
  · intro e he
    unfold createDBIndex
    simp only [he]
  · intro uri
    unfold newAdapter
    by_cases hu : uri = ""
    · simp [hu]
    · rw [if_neg hu]
      cases hn : d.newClient with
      | error m => simp [hu]
      | ok u => simp [hu, hopen]

/-! ### `removeFilteredPolicy` with no field in range -/

theorem removeFilteredPolicyLine_type_only (ptype : String) (fieldIndex : Int)
    (values : List String)
    (h : values = [] ∨ 6 ≤ fieldIndex ∨ fieldIndex + values.length ≤ 0) :
    removeFilteredPolicyLine ptype fieldIndex values = { ptype := some ptype } := by
  have hl : values.length = 0 ∨ 6 ≤ fieldIndex ∨ fieldIndex + values.length ≤ 0 := by
    rcases h with h | h | h
    · exact Or.inl (by rw [h]; rfl)
    · exact Or.inr (Or.inl h)
    · exact Or.inr (Or.inr h)
  have h0 : ¬ (fieldIndex ≤ 0 ∧ 0 < fieldIndex + values.length) := by omega
  have h1 : ¬ (fieldIndex ≤ 1 ∧ 1 < fieldIndex + values.length) := by omega
  have h2 : ¬ (fieldIndex ≤ 2 ∧ 2 < fieldIndex + values.length) := by omega
  have h3 : ¬ (fieldIndex ≤ 3 ∧ 3 < fieldIndex + values.length) := by omega
  have h4 : ¬ (fieldIndex ≤ 4 ∧ 4 < fieldIndex + values.length) := by omega
  have h5 : ¬ (fieldIndex ≤ 5 ∧ 5 < fieldIndex + values.length) := by omega
  simp only [removeFilteredPolicyLine, if_neg h0, if_neg h1, if_neg h2, if_neg h3, if_neg h4,
    if_neg h5]

theorem matchesQuery_type_only (ptype : String) (d : CasbinRule) :
    matchesQuery { ptype := some ptype } d = (d.ptype == some ptype) := by
  simp [matchesQuery]

/-- C13: for every store and type tag, when `removeFilteredPolicy` is called with no
values, or with a `fieldIndex` for which no value lands in `0..5` (`fieldIndex >= 6`, or
`fieldIndex + len(values) <= 0`), the partial-match record contains the type only, so
every record of that type is deleted and the records of every other type stay, unchanged
and in place. -/
theorem removeFilteredPolicy_type_only (s : Store) (ptype : String) (fieldIndex : Int)
    (values : List String)
    (h : values = [] ∨ 6 ≤ fieldIndex ∨ fieldIndex + values.length ≤ 0) :
    removeFilteredPolicyLine ptype fieldIndex values = { ptype := some ptype } ∧
    (removeFilteredPolicy s ptype fieldIndex values).docs =
      s.docs.filter (fun d => decide (d.ptype ≠ some ptype)) ∧
    (∀ d ∈ (removeFilteredPolicy s ptype fieldIndex values).docs, d.ptype ≠ some ptype) ∧
    (∀ d ∈ s.docs, d.ptype ≠ some ptype →
      d ∈ (removeFilteredPolicy s ptype fieldIndex values).docs) := by
  have hline := removeFilteredPolicyLine_type_only ptype fieldIndex values h
  have hdocs : (removeFilteredPolicy s ptype fieldIndex values).docs =
      s.docs.filter (fun d => decide (d.ptype ≠ some ptype)) := by
    unfold removeFilteredPolicy
    rw [deleteMany_docs, hline]
    apply List.filter_congr
    intro d _
    rw [matchesQuery_type_only]
    by_cases hd : d.ptype = some ptype <;> simp [hd]
  refine ⟨hline, hdocs, ?_, ?_⟩
  · intro d hd
    rw [hdocs, List.mem_filter] at hd
    simpa using hd.2
  · intro d hd hne
    rw [hdocs, List.mem_filter]
    exact ⟨hd, by simpa using hne⟩

/-- Witness for C13: `fieldIndex = 6` with one value, on a store with one `p` record and
one `g` record. -/
theorem removeFilteredPolicy_type_only_witness :
    (removeFilteredPolicy
        ⟨some [{ ptype := some "p", v0 := some "alice" }, { ptype := some "g", v0 := some "bob" }]⟩
        "p" 6 ["alice"]).docs =
      (Store.mk (some [{ ptype := some "p", v0 := some "alice" },
        { ptype := some "g", v0 := some "bob" }])).docs.filter
        (fun d => decide (d.ptype ≠ some "p")) :=
  (removeFilteredPolicy_type_only
    ⟨some [{ ptype := some "p", v0 := some "alice" }, { ptype := some "g", v0 := some "bob" }]⟩
    "p" 6 ["alice"] (Or.inr (Or.inl (by decide)))).2.1


end CasbinMongo
